import Mathlib

/-!
Schedule creator: conflict detection and combination building.

A shallow embedding of `server/schedule_creator.go`.

* Go strings are `String`; `strings.Split`, `strings.Replace` and `strconv.Atoi`
  are written out on the characters.
* Go `int` values (`Start`, `End`) are only compared, never computed with, so they
  are `Int`; `Atoi` clamps to the 64-bit range as `strconv` does.
* An index expression that is out of range panics; functions that contain one
  return `Option`, with `none` for the panic.
* The catalog maps are association lists. The innermost list is the order in which
  `range` happens to enumerate the sections of a course.
* `Schedule.Courses` is a Go slice: a header (array, length, capacity) over a backing
  array held in an explicit `Memory`. `append` writes in place when the capacity
  allows it and allocates otherwise, as the language defines it. The capacity of a
  newly allocated array is chosen by the runtime and is a parameter `grow` of the
  model; `doubling` is the rule of the standard runtime for short slices.
-/

namespace ScheduleCreator

/-! ## Strings -/

/-- Pieces of a character list between occurrences of `sep`; there is always at
least one piece, as with `strings.Split` and a non-empty separator. -/
def splitChars (sep : Char) : List Char → List (List Char)
  | [] => [[]]
  | c :: cs =>
    if c = sep then [] :: splitChars sep cs
    else
      match splitChars sep cs with
      | [] => [[c]]
      | w :: ws => (c :: w) :: ws

/-- Go `strings.Split(s, sep)` for a separator of one character. -/
def Split (s : String) (sep : Char) : List String :=
  (splitChars sep s.data).map String.mk

/-- Go `strings.Replace(s, ":", "", -1)`: every colon removed. -/
def removeColons (s : String) : String :=
  String.mk (s.data.filter (fun c => c != ':'))

/-- Value of a decimal digit. -/
def digitVal (c : Char) : Option Nat :=
  if '0' ≤ c ∧ c ≤ '9' then some (c.toNat - 48) else none

/-- Outcome of Go `strconv.ParseUint(s, 10, 64)`: a value, a syntax error, or a
range error. -/
inductive UintResult where
  | value (n : Nat)
  | syntaxError
  | rangeError
  deriving DecidableEq, Repr

/-- The digit loop of `strconv.ParseUint` in base 10 for 64 bits, with `n` read so
far. A character that is not a digit is a syntax error; the loop stops with a
range error as soon as `n * 10` or `n * 10 + d` leaves the unsigned 64-bit range,
before it looks at the characters that follow. -/
def parseUintFrom : List Char → Nat → UintResult
  | [], n => UintResult.value n
  | c :: cs, n =>
    match digitVal c with
    | none => UintResult.syntaxError
    | some d =>
      if n ≥ 1844674407370955162 then UintResult.rangeError
      else if n * 10 + d > 18446744073709551615 then UintResult.rangeError
      else parseUintFrom cs (n * 10 + d)

/-- Go `strconv.Atoi` on a 64-bit platform: the value and whether `err == nil`.
An optional sign is followed by the digits; an empty digit string and a syntax
error give 0, a range error or a value outside the signed 64-bit range gives the
nearest bound. -/
def Atoi (s : String) : Int × Bool :=
  let signed : Bool × List Char :=
    match s.data with
    | '-' :: r => (true, r)
    | '+' :: r => (false, r)
    | r => (false, r)
  match signed.2 with
  | [] => (0, false)
  | d :: ds =>
    match parseUintFrom (d :: ds) 0 with
    | UintResult.syntaxError => (0, false)
    | UintResult.rangeError =>
      if signed.1 then (-(2 ^ 63 : Int), false) else ((2 ^ 63 : Int) - 1, false)
    | UintResult.value n =>
      if signed.1 then
        if n > 2 ^ 63 then (-(2 ^ 63 : Int), false) else (-(n : Int), true)
      else
        if n ≥ 2 ^ 63 then ((2 ^ 63 : Int) - 1, false) else ((n : Int), true)

/-! ## Data model -/

/-- The activity types of `models.ActivityType`. -/
inductive ActivityType where
  | Lecture
  | Seminar
  | Studio
  | Laboratory
  | Tutorial
  deriving DecidableEq, Repr

/-- Modelled from the spec: the `String()` method of `models.ActivityType`, whose
declaration is not in the sources; the catalog encodes an activity type by its name. -/
def ActivityType.toString : ActivityType → String
  | .Lecture => "Lecture"
  | .Seminar => "Seminar"
  | .Studio => "Studio"
  | .Laboratory => "Laboratory"
  | .Tutorial => "Tutorial"

/-- `models.ClassSession`: the fields `createSections` fills in. -/
structure ClassSession where
  Activity : String
  Term : String
  Day : String
  Start : Int
  End : Int
  deriving DecidableEq, Repr

/-- `models.CourseSection`: a name and its sessions. -/
structure CourseSection where
  Name : String
  Sessions : List ClassSession
  deriving DecidableEq, Repr

/-- Raw section record of the catalog, one entry per meeting slot in each field. -/
structure Section where
  Activity : List String
  Term : List String
  Days : List String
  StartTime : List String
  EndTime : List String
  deriving DecidableEq, Repr

/-- The catalog `CourseDatabase`: department, then course, then section name. -/
abbrev CourseDatabase := List (String × List (String × List (String × Section)))

/-- The map lookup `db[dept][course]` with its presence flag; a missing
department is a nil map, in which nothing is present. -/
def lookupCourse (db : CourseDatabase) (dept course : String) :
    Option (List (String × Section)) :=
  match db.lookup dept with
  | none => none
  | some m => m.lookup course

/-! ## Slices and memory -/

/-- Header of a `[]models.CourseSection` slice: backing array, length, capacity. -/
structure Slice where
  ptr : Nat
  len : Nat
  cap : Nat
  deriving DecidableEq, Repr

/-- `models.Schedule`: a struct holding the `Courses` slice. -/
structure Schedule where
  Courses : Slice
  deriving DecidableEq, Repr

/-- The backing arrays allocated so far, addressed by position. -/
abbrev Memory := List (List CourseSection)

/-- The zero value of `models.CourseSection`, which fills unused capacity. -/
def zeroSection : CourseSection := { Name := "", Sessions := [] }

/-- The elements a slice shows: the first `len` cells of its array. -/
def Memory.read (m : Memory) (s : Slice) : List CourseSection :=
  (m.getD s.ptr []).take s.len

/-- The sections of a schedule as anyone holding it in memory `m` sees them. -/
def Schedule.sections (m : Memory) (schedule : Schedule) : List CourseSection :=
  m.read schedule.Courses

/-- Capacity rule of the standard Go runtime for a short slice that is full: the
capacity doubles. This is exact for the capacities 1, 2 and 4 of a
`[]models.CourseSection`; from capacity 8 on the runtime rounds the doubled size
up to an allocation size class, so the theorems that fix `doubling` make at most
four appends to a schedule. -/
def doubling (cap : Nat) : Nat := 2 * cap

/-- Go `append(s, x)`. With spare capacity the element is written into the
array of `s`, at index `len`, and the result shares that array. Otherwise a new
array is allocated, holding the elements of `s` followed by `x`, with the
capacity the runtime chooses (at least the new length). -/
def appendSection (grow : Nat → Nat) (m : Memory) (s : Slice) (x : CourseSection) :
    Memory × Slice :=
  if s.len < s.cap then
    (m.set s.ptr ((m.getD s.ptr []).set s.len x), { s with len := s.len + 1 })
  else
    let n := s.len + 1
    let c := max n (grow s.cap)
    (m ++ [m.read s ++ x :: List.replicate (c - n) zeroSection],
      { ptr := m.length, len := n, cap := c })

/-- The composite literal `[]models.CourseSection{section}`: a new array of one cell. -/
def singletonSlice (m : Memory) (x : CourseSection) : Memory × Slice :=
  (m ++ [[x]], { ptr := m.length, len := 1, cap := 1 })

/-! ## Conflict detection -/

/-- Go `conflictSession`. -/
def conflictSession (s1 s2 : ClassSession) : Bool :=
  s1.Term == s2.Term && s1.Day == s2.Day &&
    ((decide (s1.Start ≤ s2.Start) && decide (s2.Start < s1.End)) ||
      (decide (s1.Start < s2.End) && decide (s2.End ≤ s1.End)))

/-- Go `conflictSection`: some session of `s1` conflicts with some session of `s2`. -/
def conflictSection (s1 s2 : CourseSection) : Bool :=
  s1.Sessions.any (fun ses1 => s2.Sessions.any (fun ses2 => conflictSession ses1 ses2))

/-- The two nested loops of `conflictInSchedule` over the sections of a schedule. -/
def conflictInCourses (courses : List CourseSection) : Bool :=
  courses.any (fun c1 => courses.any (fun c2 => c1.Name != c2.Name && conflictSection c1 c2))

/-- Go `conflictInSchedule`, on a schedule held in memory `m`. -/
def conflictInSchedule (m : Memory) (schedule : Schedule) : Bool :=
  conflictInCourses (schedule.sections m)

/-! ## Section filter -/

/-- Go `isIncluded`. -/
def isIncluded (activity : String) (desiredTypes : List ActivityType) : Bool :=
  desiredTypes.any (fun a => activity == a.toString)

/-- The inner loop of `createSections`: one session per day token of slot `i`.
The four index expressions at `i` panic when a field is too short. -/
def sessionsOfSlot (s : Section) (i : Nat) : List String → Option (List ClassSession)
  | [] => some []
  | day :: days =>
    match s.StartTime[i]?, s.EndTime[i]?, s.Activity[i]?, s.Term[i]? with
    | some st, some en, some act, some term =>
      match sessionsOfSlot s i days with
      | none => none
      | some more =>
        some ({ Activity := act, Term := term, Day := day,
                Start := (Atoi (removeColons st)).1,
                End := (Atoi (removeColons en)).1 } :: more)
    | _, _, _, _ => none

/-- The loop of `createSections` over `s.Days`, from slot `i` on. -/
def sessionsFrom (s : Section) : Nat → List String → Option (List ClassSession)
  | _, [] => some []
  | i, dayStr :: more =>
    match sessionsOfSlot s i (Split dayStr ' '), sessionsFrom s (i + 1) more with
    | some a, some b => some (a ++ b)
    | _, _ => none

/-- The loop of `createSections` over the sections of a course, in the order the
map yields them. `s.Activity[0]` panics on a record without slots. -/
def sectionsOf (activityTypes : List ActivityType) :
    List (String × Section) → Option (List CourseSection)
  | [] => some []
  | (sectionName, s) :: more =>
    match s.Activity[0]? with
    | none => none
    | some a0 =>
      if !isIncluded a0 activityTypes then sectionsOf activityTypes more
      else
        match sessionsFrom s 0 s.Days, sectionsOf activityTypes more with
        | some sessions, some rest =>
          some ({ Name := sectionName, Sessions := sessions } :: rest)
        | _, _ => none

/-- The department of a course identifier: `strings.Split(course, " ")[0]`. -/
def deptOf (course : String) : String :=
  (Split course ' ').headD ""

/-- Go `createSections`; `none` when an index expression panics. -/
def createSections (db : CourseDatabase) (course : String)
    (activityTypes : List ActivityType) : Option (List CourseSection) :=
  match lookupCourse db (deptOf course) course with
  | none => some []
  | some entries => sectionsOf activityTypes entries

/-- Go `courseExists`. -/
def courseExists (db : CourseDatabase) (course : String) : Bool :=
  (lookupCourse db (deptOf course) course).isSome

/-! ## Combination builder -/

/-- Go `addSection`: the schedule handed back, whether the section was added, and
the memory after the `append`. -/
def addSection (grow : Nat → Nat) (m : Memory) (schedule : Schedule)
    (sec : CourseSection) : Schedule × Bool × Memory :=
  let r := appendSection grow m schedule.Courses sec
  let newSchedule : Schedule := { Courses := r.2 }
  if conflictInSchedule r.1 newSchedule then (schedule, false, r.1)
  else (newSchedule, true, r.1)

/-- First branch of `addSections`: one new single-section schedule per section. -/
def seedSchedules : List CourseSection → List Schedule × Memory → List Schedule × Memory
  | [], st => st
  | sec :: more, (schedules, m) =>
    let r := singletonSlice m sec
    seedSchedules more (schedules ++ [{ Courses := r.2 }], r.1)

/-- Inner loop of `addSections`: every section tried on one schedule. -/
def extendSchedule (grow : Nat → Nat) (schedule : Schedule) :
    List CourseSection → List Schedule × Memory → List Schedule × Memory
  | [], st => st
  | sec :: more, (newSchedules, m) =>
    let r := addSection grow m schedule sec
    if r.2.1 then extendSchedule grow schedule more (newSchedules ++ [r.1], r.2.2)
    else extendSchedule grow schedule more (newSchedules, r.2.2)

/-- Outer loop of `addSections` over the schedules of the previous generation. -/
def extendSchedules (grow : Nat → Nat) (sections : List CourseSection) :
    List Schedule → List Schedule × Memory → List Schedule × Memory
  | [], st => st
  | schedule :: more, st =>
    extendSchedules grow sections more (extendSchedule grow schedule sections st)

/-- Go `addSections`. -/
def addSections (grow : Nat → Nat) (m : Memory) (schedules : List Schedule)
    (sections : List CourseSection) : List Schedule × Memory :=
  if schedules.length = 0 then seedSchedules sections (schedules, m)
  else extendSchedules grow sections schedules ([], m)

/-- The activity types `Create` asks for. -/
def lectureTypes : List ActivityType :=
  [ActivityType.Lecture, ActivityType.Seminar, ActivityType.Studio]

/-- The loop of `Create` from a given working collection and memory. -/
def createFrom (grow : Nat → Nat) (db : CourseDatabase) :
    List String → List Schedule × Memory → Option (List Schedule × Memory)
  | [], st => some st
  | c :: more, st =>
    if !courseExists db c then createFrom grow db more st
    else
      match createSections db c lectureTypes with
      | none => none
      | some sections => createFrom grow db more (addSections grow st.2 st.1 sections)

/-- Go `Create`: the schedules returned and the memory they live in; `none` when a
catalog record makes `createSections` panic. -/
def Create (grow : Nat → Nat) (db : CourseDatabase) (courses : List String) :
    Option (List Schedule × Memory) :=
  createFrom grow db courses ([], [])

/-- What the caller of `Create` reads: the sections of each returned schedule. -/
def createdSchedules (grow : Nat → Nat) (db : CourseDatabase) (courses : List String) :
    Option (List (List CourseSection)) :=
  (Create grow db courses).map (fun r => r.1.map (fun s => s.sections r.2))

/-! ## Predicates used to state the properties -/

/-- Whether `sec` is among the candidate sections `createSections` yields for `course`. -/
def isCandidate (db : CourseDatabase) (course : String) (sec : CourseSection) : Bool :=
  match createSections db course lectureTypes with
  | some secs => decide (sec ∈ secs)
  | none => false

/-- A slice header that lies within an allocated array of `m`. -/
def Slice.ValidIn (m : Memory) (s : Slice) : Prop :=
  s.ptr < m.length ∧ s.len ≤ s.cap ∧ s.cap ≤ (m.getD s.ptr []).length

/-- Every schedule of `G` is valid in `m` and its sections relate, position by
position, to the list `cs`. -/
def Attributed (R : CourseSection → String → Prop) (m : Memory) (cs : List String)
    (G : List Schedule) : Prop :=
  ∀ s ∈ G, s.Courses.ValidIn m ∧ List.Forall₂ R (s.sections m) cs

/-- Every course key of a catalog. -/
def courseNames : CourseDatabase → List String
  | [] => []
  | d :: more => d.2.map Prod.fst ++ courseNames more

/-! ## Concrete sessions and catalogs -/

/-- Monday 10:00 to 11:00. -/
def innerSession : ClassSession :=
  { Activity := "Lecture", Term := "1", Day := "Mon", Start := 1000, End := 1100 }

/-- Monday 09:00 to 12:00, which encloses `innerSession`. -/
def outerSession : ClassSession :=
  { Activity := "Lecture", Term := "1", Day := "Mon", Start := 900, End := 1200 }

/-- Monday 11:00 to 12:00, which starts when `innerSession` ends. -/
def nextSession : ClassSession :=
  { Activity := "Lecture", Term := "1", Day := "Mon", Start := 1100, End := 1200 }

/-- Monday 10:30 to 11:30, which overlaps `innerSession` without enclosing it. -/
def shiftedSession : ClassSession :=
  { Activity := "Lecture", Term := "1", Day := "Mon", Start := 1030, End := 1130 }

/-- A catalog record with one lecture slot in term 1. -/
def lecture (day start stop : String) : Section :=
  { Activity := ["Lecture"], Term := ["1"], Days := [day], StartTime := [start],
    EndTime := [stop] }

/-- The section `createSections` builds from a `lecture` record whose times read
as the numbers `s` and `e`. -/
def lectureSection (name day : String) (s e : Int) : CourseSection :=
  { Name := name,
    Sessions := [{ Activity := "Lecture", Term := "1", Day := day, Start := s, End := e }] }

/-- A small catalog. `MATH 102` has a single lecture, which overlaps the only lecture
of `CPSC 110`; the second of the two lectures of `MATH 101` overlaps it as well. -/
def catalog : CourseDatabase :=
  [("CPSC", [("CPSC 110", [("CPSC 110 101", lecture "Mon" "09:00" "10:00")]),
             ("CPSC 121", [("CPSC 121 101", lecture "Tue" "09:00" "10:00")])]),
   ("MATH", [("MATH 100", [("MATH 100 101", lecture "Wed" "09:00" "10:00")]),
             ("MATH 101", [("MATH 101 101", lecture "Thu" "09:00" "10:00"),
                           ("MATH 101 102", lecture "Mon" "09:30" "10:30")]),
             ("MATH 102", [("MATH 102 101", lecture "Mon" "09:30" "10:30")]),
             ("MATH 200", [("MATH 200 101", lecture "Thu" "13:00" "14:00"),
                           ("MATH 200 102", lecture "Fri" "13:00" "14:00")])])]

/-- The sections of `catalog`, as `createSections` builds them. -/
def cpsc110 : CourseSection := lectureSection "CPSC 110 101" "Mon" 900 1000

def cpsc121 : CourseSection := lectureSection "CPSC 121 101" "Tue" 900 1000

def math100 : CourseSection := lectureSection "MATH 100 101" "Wed" 900 1000

def math101a : CourseSection := lectureSection "MATH 101 101" "Thu" 900 1000

def math101b : CourseSection := lectureSection "MATH 101 102" "Mon" 930 1030

def math102 : CourseSection := lectureSection "MATH 102 101" "Mon" 930 1030

def math200a : CourseSection := lectureSection "MATH 200 101" "Thu" 1300 1400

def math200b : CourseSection := lectureSection "MATH 200 102" "Fri" 1300 1400

/-- Two courses whose sections carry the same short name and meet at the same time. -/
def shortNameCatalog : CourseDatabase :=
  [("CPSC", [("CPSC 121", [("L1A", lecture "Mon" "09:00" "10:00")])]),
   ("MATH", [("MATH 100", [("L1A", lecture "Mon" "09:00" "10:00")])])]

/-- The section both courses of `shortNameCatalog` yield. -/
def l1aSection : CourseSection := lectureSection "L1A" "Mon" 900 1000

/-- A four-course request on which the fourth `append` of each schedule is done in place. -/
def overwriteRequest : List String := ["CPSC 110", "CPSC 121", "MATH 100", "MATH 101"]

/-- A four-course request whose last course has two sections that both fit. -/
def sharedRequest : List String := ["CPSC 110", "CPSC 121", "MATH 100", "MATH 200"]

/-- A request whose first two courses exclude each other. -/
def reseedRequest : List String := ["CPSC 110", "MATH 102", "CPSC 121"]

/-- A request in which no selection of one section per course is free of conflicts. -/
def blockedRequest : List String := ["CPSC 110", "MATH 102", "MATH 100"]

/-! ## Definitions for the later properties -/

/-- A record with complete slots: it has a first activity, and every entry of
`Days` has its `Activity`, `Term`, `StartTime` and `EndTime` entries. -/
def completeRecord (s : Section) : Bool :=
  decide (0 < s.Activity.length) && decide (s.Days.length ≤ s.Activity.length) &&
    decide (s.Days.length ≤ s.Term.length) && decide (s.Days.length ≤ s.StartTime.length) &&
    decide (s.Days.length ≤ s.EndTime.length)

/-- The sessions of meeting slot `i` in the words of the specification: one per
space-separated token of `Days[i]`, sharing the activity, term, start and end of
the slot, the times being the numbers read from the strings without their colons. -/
def slotSessions (s : Section) (i : Nat) : List ClassSession :=
  (Split (s.Days.getD i "") ' ').map (fun day =>
    { Activity := s.Activity.getD i "", Term := s.Term.getD i "", Day := day,
      Start := (Atoi (removeColons (s.StartTime.getD i ""))).1,
      End := (Atoi (removeColons (s.EndTime.getD i ""))).1 })

/-- The section the specification describes for a catalog record: named by its
catalog key, with the sessions of its slots in slot order. -/
def recordSection (name : String) (s : Section) : CourseSection :=
  { Name := name, Sessions := (List.range s.Days.length).flatMap (slotSessions s) }

/-- Whether the first activity of a record is Lecture, Seminar or Studio. -/
def isLectureRecord (s : Section) : Bool :=
  decide (s.Activity.headD "" ∈ ["Lecture", "Seminar", "Studio"])

/-- The extensions of one partial schedule that `addSection` accepts, as lists of
sections: the partial schedule followed by each section that brings no conflict. -/
def acceptedExtensions (partialSchedule sections : List CourseSection) :
    List (List CourseSection) :=
  (sections.filter (fun x => !conflictInCourses (partialSchedule ++ [x]))).map
    (fun x => partialSchedule ++ [x])

/-- Whether every record the catalog holds for course `c` is complete; a course
that is not in the catalog has no record. -/
def completeCourse (db : CourseDatabase) (c : String) : Bool :=
  match lookupCourse db (deptOf c) c with
  | none => true
  | some entries => entries.all (fun e => completeRecord e.2)

/-- The catalog sections of course `c`, in the order the map yields them. -/
def courseRecords (db : CourseDatabase) (c : String) : List (String × Section) :=
  (lookupCourse db (deptOf c) c).getD []

/-- Every selection of one section per list, in nested order: the first list is
the outermost loop, the last list the innermost. -/
def selections : List (List CourseSection) → List (List CourseSection)
  | [] => [[]]
  | l :: more => l.flatMap (fun x => (selections more).map (fun sel => x :: sel))

/-- The candidate sections of each recognized course of a request, in request
order; `none` when `createSections` panics on one of them. -/
def candidateLists (db : CourseDatabase) : List String → Option (List (List CourseSection))
  | [] => some []
  | c :: more =>
    if !courseExists db c then candidateLists db more
    else
      match createSections db c lectureTypes, candidateLists db more with
      | some l, some ls => some (l :: ls)
      | _, _ => none

/-- Generate-then-filter in the words of the specification: the full cartesian
product of the candidate lists, keeping the selections without a conflict. -/
def generateThenFilter (db : CourseDatabase) (courses : List String) :
    Option (List (List CourseSection)) :=
  (candidateLists db courses).map
    (fun ls => (selections ls).filter (fun sel => !conflictInCourses sel))

/-- A catalog in which the lecture of `MATH 100` (Monday 9 to 10) has a start time
that does not parse, and the lecture of `CPSC 110` is Monday 08:00 to 09:00. -/
def untimedCatalog : CourseDatabase :=
  [("CPSC", [("CPSC 110", [("CPSC 110 101", lecture "Mon" "08:00" "09:00")])]),
   ("MATH", [("MATH 100", [("MATH 100 101", lecture "Mon" "9.00" "10:00")])])]

/-- A catalog with incomplete records: `CPSC 110` has a slot without times,
`CPSC 121` has a record without any slot next to an ordinary lecture, `CPSC 210`
has two `Days` entries and one `Activity` entry. -/
def brokenCatalog : CourseDatabase :=
  [("CPSC", [("CPSC 110", [("CPSC 110 101",
                { Activity := ["Lecture"], Term := ["1"], Days := ["Mon"], StartTime := [],
                  EndTime := [] })]),
             ("CPSC 121", [("CPSC 121 101", lecture "Tue" "09:00" "10:00"),
                           ("CPSC 121 102",
                { Activity := [], Term := [], Days := [], StartTime := [], EndTime := [] })]),
             ("CPSC 210", [("CPSC 210 101",
                { Activity := ["Lecture"], Term := ["1", "1"], Days := ["Mon Wed", "Fri"],
                  StartTime := ["09:00", "09:00"], EndTime := ["10:00", "10:00"] })])])]

/-- The catalog `catalog` with the two sections of `MATH 200` yielded in the other order. -/
def swappedCatalog : CourseDatabase :=
  [("CPSC", [("CPSC 110", [("CPSC 110 101", lecture "Mon" "09:00" "10:00")]),
             ("CPSC 121", [("CPSC 121 101", lecture "Tue" "09:00" "10:00")])]),
   ("MATH", [("MATH 100", [("MATH 100 101", lecture "Wed" "09:00" "10:00")]),
             ("MATH 101", [("MATH 101 101", lecture "Thu" "09:00" "10:00"),
                           ("MATH 101 102", lecture "Mon" "09:30" "10:30")]),
             ("MATH 102", [("MATH 102 101", lecture "Mon" "09:30" "10:30")]),
             ("MATH 200", [("MATH 200 102", lecture "Fri" "13:00" "14:00"),
                           ("MATH 200 101", lecture "Thu" "13:00" "14:00")])])]

/-- The schedule `Create` holds after the first three courses of `sharedRequest`:
three sections in an array of capacity four. -/
def threeCourseSchedule : Schedule := { Courses := { ptr := 2, len := 3, cap := 4 } }

/-- The memory `Create` has built after the first three courses of `sharedRequest`. -/
def threeCourseMemory : Memory :=
  [[cpsc110], [cpsc110, cpsc121], [cpsc110, cpsc121, math100, zeroSection]]

/-- The section `createSections` builds for `CPSC 110` in `untimedCatalog`. -/
def earlySection : CourseSection := lectureSection "CPSC 110 101" "Mon" 800 900

/-- The section `createSections` builds for `MATH 100` in `untimedCatalog`: the
unparsed start time has become 0. -/
def untimedSection : CourseSection := lectureSection "MATH 100 101" "Mon" 0 1000

/-! ## Sessions -/

theorem conflictSession_eq_true_iff (a b : ClassSession) :
    conflictSession a b = true ↔
      a.Term = b.Term ∧ a.Day = b.Day ∧
        ((a.Start ≤ b.Start ∧ b.Start < a.End) ∨ (a.Start < b.End ∧ b.End ≤ a.End)) := by
  simp [conflictSession, and_assoc]

theorem conflictSession_eq_false_iff (a b : ClassSession) :
    conflictSession a b = false ↔
      ¬ (a.Term = b.Term ∧ a.Day = b.Day ∧
        ((a.Start ≤ b.Start ∧ b.Start < a.End) ∨ (a.Start < b.End ∧ b.End ≤ a.End))) := by
  rw [← conflictSession_eq_true_iff]; simp

/-- C4, as stated, fails: `innerSession` (10:00 to 11:00) and `outerSession`
(09:00 to 12:00) are well formed, share term and day, and their half-open
intervals intersect, yet `conflictSession innerSession outerSession` is false. -/
theorem conflictSession_misses_enclosing_session :
    innerSession.Start < innerSession.End ∧ outerSession.Start < outerSession.End ∧
      innerSession.Term = outerSession.Term ∧ innerSession.Day = outerSession.Day ∧
      innerSession.Start < outerSession.End ∧ outerSession.Start < innerSession.End ∧
      conflictSession innerSession outerSession = false := by
  decide

/-- C4, amended: for well-formed sessions, `conflictSession a b` is true exactly
when term and day are equal, the half-open intervals intersect, and `b` does not
strictly enclose `a` (it is not the case that `b` starts before `a` and ends after it). -/
theorem conflictSession_iff_overlap_not_enclosed (a b : ClassSession)
    (_ha : a.Start < a.End) (hb : b.Start < b.End) :
    conflictSession a b = true ↔
      a.Term = b.Term ∧ a.Day = b.Day ∧ a.Start < b.End ∧ b.Start < a.End ∧
        ¬ (b.Start < a.Start ∧ a.End < b.End) := by
  rw [conflictSession_eq_true_iff]
  constructor
  · rintro ⟨ht, hd, h⟩
    refine ⟨ht, hd, ?_⟩
    omega
  · rintro ⟨ht, hd, h⟩
    refine ⟨ht, hd, ?_⟩
    omega

theorem conflictSession_iff_overlap_not_enclosed_witness :
    outerSession.Start < outerSession.End ∧ innerSession.Start < innerSession.End ∧
    (conflictSession outerSession innerSession = true ↔
      outerSession.Term = innerSession.Term ∧ outerSession.Day = innerSession.Day ∧
        outerSession.Start < innerSession.End ∧ innerSession.Start < outerSession.End ∧
        ¬ (innerSession.Start < outerSession.Start ∧ outerSession.End < innerSession.End)) :=
  ⟨by decide, by decide,
    conflictSession_iff_overlap_not_enclosed outerSession innerSession (by decide) (by decide)⟩

/-- C9: for well-formed sessions whose terms differ, or whose days differ, or of
which one ends no later than the other starts, `conflictSession` is false in
both argument orders. -/
theorem conflictSession_no_false_positive (a b : ClassSession)
    (ha : a.Start < a.End) (hb : b.Start < b.End)
    (h : a.Term ≠ b.Term ∨ a.Day ≠ b.Day ∨ a.End ≤ b.Start ∨ b.End ≤ a.Start) :
    conflictSession a b = false ∧ conflictSession b a = false := by
  rw [conflictSession_eq_false_iff, conflictSession_eq_false_iff]
  constructor
  · rintro ⟨ht, hd, h'⟩
    rcases h with h | h | h | h
    · exact h ht
    · exact h hd
    · omega
    · omega
  · rintro ⟨ht, hd, h'⟩
    rcases h with h | h | h | h
    · exact h ht.symm
    · exact h hd.symm
    · omega
    · omega

theorem conflictSession_no_false_positive_witness :
    innerSession.Start < innerSession.End ∧ nextSession.Start < nextSession.End ∧
    innerSession.End ≤ nextSession.Start ∧
    conflictSession innerSession nextSession = false ∧
    conflictSession nextSession innerSession = false :=
  ⟨by decide, by decide, by decide,
    conflictSession_no_false_positive innerSession nextSession (by decide) (by decide)
      (Or.inr (Or.inr (Or.inl (by decide))))⟩

/-- C10, as stated, fails: on the well-formed sessions `innerSession` and
`outerSession` the two argument orders of `conflictSession` give different answers. -/
theorem conflictSession_not_symmetric :
    innerSession.Start < innerSession.End ∧ outerSession.Start < outerSession.End ∧
      conflictSession innerSession outerSession ≠ conflictSession outerSession innerSession := by
  decide

/-- C10, amended: for well-formed sessions of which neither strictly encloses the
other, `conflictSession a b = conflictSession b a`. -/
theorem conflictSession_symm_of_not_enclosed (a b : ClassSession)
    (ha : a.Start < a.End) (hb : b.Start < b.End)
    (hab : ¬ (a.Start < b.Start ∧ b.End < a.End))
    (hba : ¬ (b.Start < a.Start ∧ a.End < b.End)) :
    conflictSession a b = conflictSession b a := by
  rw [Bool.eq_iff_iff, conflictSession_eq_true_iff, conflictSession_eq_true_iff]
  constructor
  · rintro ⟨ht, hd, h⟩
    refine ⟨ht.symm, hd.symm, ?_⟩
    omega
  · rintro ⟨ht, hd, h⟩
    refine ⟨ht.symm, hd.symm, ?_⟩
    omega

theorem conflictSession_symm_of_not_enclosed_witness :
    innerSession.Start < innerSession.End ∧ shiftedSession.Start < shiftedSession.End ∧
    conflictSession innerSession shiftedSession = true ∧
    conflictSession innerSession shiftedSession = conflictSession shiftedSession innerSession :=
  ⟨by decide, by decide, by decide,
    conflictSession_symm_of_not_enclosed innerSession shiftedSession (by decide) (by decide)
      (by decide) (by decide)⟩

/-! ## Schedules -/

theorem conflictInCourses_eq_true_iff (l : List CourseSection) :
    conflictInCourses l = true ↔
      ∃ c1 ∈ l, ∃ c2 ∈ l, c1.Name ≠ c2.Name ∧ conflictSection c1 c2 = true := by
  simp [conflictInCourses, List.any_eq_true]

/-- C5, as stated, fails: for the two distinct courses of `shortNameCatalog`,
`Create` returns a schedule holding one section of each; the sections at
positions 0 and 1 conflict, yet `conflictInSchedule` is false on it, because the
two sections have the same `Name`. -/
theorem conflictInSchedule_misses_equal_names :
    ∃ (schedules : List Schedule) (m : Memory) (s : Schedule),
      Create doubling shortNameCatalog ["CPSC 121", "MATH 100"] = some (schedules, m) ∧
      s ∈ schedules ∧ conflictInSchedule m s = false ∧
      ∃ (i j : Nat) (c1 c2 : CourseSection), i ≠ j ∧ (s.sections m)[i]? = some c1 ∧
        (s.sections m)[j]? = some c2 ∧ conflictSection c1 c2 = true :=
  ⟨[{ Courses := { ptr := 1, len := 2, cap := 2 } }], [[l1aSection], [l1aSection, l1aSection]],
    { Courses := { ptr := 1, len := 2, cap := 2 } }, by decide, by decide, by decide,
    0, 1, l1aSection, l1aSection, by decide, by decide, by decide, by decide⟩

/-- C5, amended: for every schedule whose sections have pairwise distinct names,
`conflictInSchedule` is true exactly when there are two different positions `i`
and `j` whose sections satisfy `conflictSection`. -/
theorem conflictInSchedule_iff_of_distinct_names (m : Memory) (schedule : Schedule)
    (hn : ((schedule.sections m).map (fun c => c.Name)).Nodup) :
    conflictInSchedule m schedule = true ↔
      ∃ (i j : Nat) (c1 c2 : CourseSection), i ≠ j ∧ (schedule.sections m)[i]? = some c1 ∧
        (schedule.sections m)[j]? = some c2 ∧ conflictSection c1 c2 = true := by
  unfold conflictInSchedule
  rw [conflictInCourses_eq_true_iff]
  generalize schedule.sections m = l at hn ⊢
  constructor
  · rintro ⟨c1, h1, c2, h2, hne, hc⟩
    obtain ⟨i, hi⟩ := List.mem_iff_getElem?.mp h1
    obtain ⟨j, hj⟩ := List.mem_iff_getElem?.mp h2
    refine ⟨i, j, c1, c2, ?_, hi, hj, hc⟩
    rintro rfl
    rw [hi] at hj
    exact hne (by injection hj with h; rw [h])
  · rintro ⟨i, j, c1, c2, hij, hi, hj, hc⟩
    refine ⟨c1, List.mem_iff_getElem?.mpr ⟨i, hi⟩, c2, List.mem_iff_getElem?.mpr ⟨j, hj⟩, ?_, hc⟩
    intro hname
    have h1 : (l.map (fun c => c.Name))[i]? = some c1.Name := by simp [hi]
    have h2 : (l.map (fun c => c.Name))[j]? = some c1.Name := by simp [hj, hname]
    have hi' : i < (l.map (fun c => c.Name)).length := by
      by_contra hlt
      rw [List.getElem?_eq_none (by omega)] at h1
      exact absurd h1 (by simp)
    have hj' : j < (l.map (fun c => c.Name)).length := by
      by_contra hlt
      rw [List.getElem?_eq_none (by omega)] at h2
      exact absurd h2 (by simp)
    rw [List.getElem?_eq_getElem hi'] at h1
    rw [List.getElem?_eq_getElem hj'] at h2
    have := (@List.Nodup.getElem_inj_iff _ _ hn i hi' j hj').mp
      (by injection h1 with h1; injection h2 with h2; rw [h1, h2])
    exact hij this

theorem conflictInSchedule_iff_of_distinct_names_witness :
    (({ Courses := { ptr := 0, len := 2, cap := 2 } } : Schedule).sections
        [[cpsc110, math102]]).map (fun c => c.Name) = ["CPSC 110 101", "MATH 102 101"] ∧
    (conflictInSchedule [[cpsc110, math102]] { Courses := { ptr := 0, len := 2, cap := 2 } }
        = true ↔
      ∃ (i j : Nat) (c1 c2 : CourseSection), i ≠ j ∧
        (({ Courses := { ptr := 0, len := 2, cap := 2 } } : Schedule).sections
          [[cpsc110, math102]])[i]? = some c1 ∧
        (({ Courses := { ptr := 0, len := 2, cap := 2 } } : Schedule).sections
          [[cpsc110, math102]])[j]? = some c2 ∧ conflictSection c1 c2 = true) :=
  ⟨by decide, conflictInSchedule_iff_of_distinct_names [[cpsc110, math102]]
    { Courses := { ptr := 0, len := 2, cap := 2 } } (by decide)⟩

/-! ## Memory -/

theorem take_set_self {α : Type} (x : α) : ∀ (n : Nat) (l : List α), (l.set n x).take n = l.take n
  | 0, l => by simp
  | n + 1, [] => by simp
  | n + 1, a :: l => by simp [take_set_self x n l]

theorem forall₂_take_set {R : CourseSection → String → Prop} (x : CourseSection) (c : String)
    (hx : R x c) :
    ∀ (cs : List String) (arr : List CourseSection),
      List.Forall₂ R (arr.take (cs.length + 1)) (cs ++ [c]) →
      List.Forall₂ R ((arr.set cs.length x).take (cs.length + 1)) (cs ++ [c])
  | [], arr, h => by
    cases arr with
    | nil => simp at h
    | cons a rest => simpa using hx
  | d :: ds, arr, h => by
    cases arr with
    | nil => simp at h
    | cons a rest =>
      simp only [List.length_cons, List.take_succ_cons, List.cons_append, List.forall₂_cons,
        List.set_cons_succ] at h ⊢
      exact ⟨h.1, forall₂_take_set x c hx ds rest h.2⟩

theorem read_length (m : Memory) (s : Slice) (hv : s.ValidIn m) : (m.read s).length = s.len := by
  obtain ⟨_, h1, h2⟩ := hv
  simp only [Memory.read, List.length_take]
  omega

/-- What `append` does to memory: old arrays are kept or get the cell at index
`len` overwritten, the result reads as the old elements followed by the new one. -/
theorem appendSection_frame (grow : Nat → Nat) (m : Memory) (s : Slice) (x : CourseSection)
    (hv : s.ValidIn m) :
    (∀ p, p < m.length →
      (appendSection grow m s x).1.getD p [] = m.getD p [] ∨
      (appendSection grow m s x).1.getD p [] = (m.getD p []).set s.len x) ∧
    m.length ≤ (appendSection grow m s x).1.length ∧
    (appendSection grow m s x).1.read (appendSection grow m s x).2 = m.read s ++ [x] ∧
    (appendSection grow m s x).2.ValidIn (appendSection grow m s x).1 := by
  obtain ⟨hp, hlc, hca⟩ := hv
  unfold appendSection
  by_cases hlt : s.len < s.cap
  · simp only [hlt, if_true]
    refine ⟨?_, by simp, ?_, ?_⟩
    · intro p hpl
      by_cases hps : s.ptr = p
      · right
        subst hps
        simp [List.getD_eq_getElem?_getD, List.getElem?_set, hp]
      · left
        simp [List.getD_eq_getElem?_getD, List.getElem?_set, hps]
    · have hlen : s.len < (m.getD s.ptr []).length := by omega
      simp only [Memory.read, List.getD_eq_getElem?_getD, List.getElem?_set, hp, if_true,
        Option.getD_some]
      rw [List.take_succ, take_set_self]
      simp [List.getElem?_set, hlen, List.getD_eq_getElem?_getD] at hlen ⊢
      simp [hlen]
    · refine ⟨by simpa using hp, by simp; omega, ?_⟩
      simp [List.getD_eq_getElem?_getD, List.getElem?_set, hp] at hca ⊢
      exact hca
  · simp only [hlt, if_false]
    have hrl : (m.read s).length = s.len := read_length m s ⟨hp, hlc, hca⟩
    refine ⟨?_, by simp, ?_, ?_⟩
    · intro p hpl
      left
      simp [List.getD_eq_getElem?_getD, List.getElem?_append_left hpl]
    · simp only [Memory.read, List.getD_eq_getElem?_getD]
      rw [List.getElem?_append_right (le_refl _)]
      simp only [Nat.sub_self, List.getElem?_cons_zero, Option.getD_some]
      have : (List.take s.len ((m[s.ptr]?).getD [])).length = s.len := by
        simpa [Memory.read, List.getD_eq_getElem?_getD] using hrl
      rw [List.take_append_eq_append_take, this]
      simp
    · refine ⟨by simp, by simp, ?_⟩
      simp [List.getD_eq_getElem?_getD, hrl]
      omega


theorem attributed_after_append {R : CourseSection → String → Prop} (grow : Nat → Nat)
    (m : Memory) (s : Slice) (x : CourseSection) (c : String) (cs : List String)
    (hv : s.ValidIn m) (hs : List.Forall₂ R (m.read s) cs) (hx : R x c) (t : Slice)
    (ht : t.ValidIn m) :
    t.ValidIn (appendSection grow m s x).1 ∧
    (List.Forall₂ R (m.read t) cs →
      List.Forall₂ R ((appendSection grow m s x).1.read t) cs) ∧
    (List.Forall₂ R (m.read t) (cs ++ [c]) →
      List.Forall₂ R ((appendSection grow m s x).1.read t) (cs ++ [c])) := by
  obtain ⟨hframe, hlen, -, -⟩ := appendSection_frame grow m s x hv
  have hL : s.len = cs.length := by rw [← read_length m s hv]; exact hs.length_eq
  have htl := read_length m t ht
  obtain ⟨htp, htlc, htca⟩ := ht
  rcases hframe t.ptr htp with he | he
  · refine ⟨⟨by omega, htlc, by rw [he]; exact htca⟩, ?_, ?_⟩
    · intro h; simpa only [Memory.read, he] using h
    · intro h; simpa only [Memory.read, he] using h
  · refine ⟨⟨by omega, htlc, by rw [he]; simpa using htca⟩, ?_, ?_⟩
    · intro h
      have hl : t.len = cs.length := by rw [← htl]; exact h.length_eq
      simp only [Memory.read, he]
      rw [hL, hl, take_set_self]
      simpa only [Memory.read, hl] using h
    · intro h
      have hl : t.len = cs.length + 1 := by rw [← htl, h.length_eq]; simp
      simp only [Memory.read, he]
      rw [hL, hl]
      apply forall₂_take_set x c hx
      simpa only [Memory.read, hl] using h

theorem extendSchedule_attributed {R : CourseSection → String → Prop} (grow : Nat → Nat)
    (schedule : Schedule) (c : String) (cs : List String) (G : List Schedule)
    (hmem : schedule ∈ G) :
    ∀ (secs : List CourseSection) (new : List Schedule) (m : Memory),
      (∀ x ∈ secs, R x c) → Attributed R m cs G → Attributed R m (cs ++ [c]) new →
      Attributed R (extendSchedule grow schedule secs (new, m)).2 cs G ∧
      Attributed R (extendSchedule grow schedule secs (new, m)).2 (cs ++ [c])
        (extendSchedule grow schedule secs (new, m)).1
  | [], new, m, _, hG, hN => ⟨hG, hN⟩
  | sec :: more, new, m, hR, hG, hN => by
    have hx : R sec c := hR sec (List.mem_cons_self _ _)
    have hmore : ∀ x ∈ more, R x c := fun x h => hR x (List.mem_cons_of_mem _ h)
    obtain ⟨hsv, hsa⟩ := hG schedule hmem
    obtain ⟨-, -, hread, hvalid⟩ := appendSection_frame grow m schedule.Courses sec hsv
    have hG' : Attributed R (appendSection grow m schedule.Courses sec).1 cs G := by
      intro t ht
      obtain ⟨htv, hta⟩ := hG t ht
      obtain ⟨h1, h2, -⟩ := attributed_after_append grow m schedule.Courses sec c cs hsv hsa hx
        t.Courses htv
      exact ⟨h1, h2 hta⟩
    have hN' : Attributed R (appendSection grow m schedule.Courses sec).1 (cs ++ [c]) new := by
      intro t ht
      obtain ⟨htv, hta⟩ := hN t ht
      obtain ⟨h1, -, h3⟩ := attributed_after_append grow m schedule.Courses sec c cs hsv hsa hx
        t.Courses htv
      exact ⟨h1, h3 hta⟩
    have hnew : Attributed R (appendSection grow m schedule.Courses sec).1 (cs ++ [c])
        (new ++ [{ Courses := (appendSection grow m schedule.Courses sec).2 }]) := by
      intro t ht
      rcases List.mem_append.mp ht with ht | ht
      · exact hN' t ht
      · rw [List.mem_singleton] at ht
        subst ht
        refine ⟨hvalid, ?_⟩
        simp only [Schedule.sections]
        rw [hread]
        exact List.rel_append hsa (List.Forall₂.cons hx List.Forall₂.nil)
    simp only [extendSchedule, addSection]
    by_cases hconf : conflictInSchedule (appendSection grow m schedule.Courses sec).1
        { Courses := (appendSection grow m schedule.Courses sec).2 } = true
    · simp only [hconf, if_true]
      exact extendSchedule_attributed grow schedule c cs G hmem more new _ hmore hG' hN'
    · simp only [hconf]
      exact extendSchedule_attributed grow schedule c cs G hmem more _ _ hmore hG' hnew

theorem extendSchedules_attributed {R : CourseSection → String → Prop} (grow : Nat → Nat)
    (secs : List CourseSection) (c : String) (cs : List String) (G : List Schedule)
    (hR : ∀ x ∈ secs, R x c) :
    ∀ (todo : List Schedule) (new : List Schedule) (m : Memory),
      (∀ s ∈ todo, s ∈ G) → Attributed R m cs G → Attributed R m (cs ++ [c]) new →
      Attributed R (extendSchedules grow secs todo (new, m)).2 (cs ++ [c])
        (extendSchedules grow secs todo (new, m)).1
  | [], new, m, _, _, hN => hN
  | schedule :: more, new, m, hsub, hG, hN => by
    obtain ⟨h1, h2⟩ := extendSchedule_attributed grow schedule c cs G
      (hsub schedule (List.mem_cons_self _ _)) secs new m hR hG hN
    simp only [extendSchedules]
    exact extendSchedules_attributed grow secs c cs G hR more _ _
      (fun s hs => hsub s (List.mem_cons_of_mem _ hs)) h1 h2


theorem validIn_append (m : Memory) (a : List CourseSection) (t : Slice) (ht : t.ValidIn m) :
    t.ValidIn (m ++ [a]) ∧ (m ++ [a]).read t = m.read t := by
  obtain ⟨htp, htlc, htca⟩ := ht
  have hg : (m ++ [a]).getD t.ptr [] = m.getD t.ptr [] := by
    simp [List.getD_eq_getElem?_getD, List.getElem?_append_left htp]
  refine ⟨⟨by simp; omega, htlc, by rw [hg]; exact htca⟩, ?_⟩
  simp only [Memory.read, hg]

theorem seedSchedules_attributed {R : CourseSection → String → Prop} (c : String) :
    ∀ (secs : List CourseSection) (acc : List Schedule) (m : Memory),
      (∀ x ∈ secs, R x c) → Attributed R m [c] acc →
      Attributed R (seedSchedules secs (acc, m)).2 [c] (seedSchedules secs (acc, m)).1
  | [], _, _, _, hA => hA
  | sec :: more, acc, m, hR, hA => by
    simp only [seedSchedules, singletonSlice]
    apply seedSchedules_attributed c more _ _ (fun x h => hR x (List.mem_cons_of_mem _ h))
    intro t ht
    rcases List.mem_append.mp ht with ht | ht
    · obtain ⟨htv, hta⟩ := hA t ht
      obtain ⟨h1, h2⟩ := validIn_append m [sec] t.Courses htv
      refine ⟨h1, ?_⟩
      simp only [Schedule.sections] at hta ⊢
      rw [h2]
      exact hta
    · rw [List.mem_singleton] at ht
      subst ht
      refine ⟨⟨by simp, by simp, by simp [List.getD_eq_getElem?_getD]⟩, ?_⟩
      simp only [Schedule.sections, Memory.read, List.getD_eq_getElem?_getD]
      rw [List.getElem?_append_right (le_refl _)]
      simpa using hR sec (List.mem_cons_self _ _)

theorem addSections_attributed {R : CourseSection → String → Prop} (grow : Nat → Nat)
    (m : Memory) (G : List Schedule) (secs : List CourseSection) (c : String)
    (cs : List String) (hR : ∀ x ∈ secs, R x c) (hG : Attributed R m cs G) :
    Attributed R (addSections grow m G secs).2 [c] (addSections grow m G secs).1 ∨
    Attributed R (addSections grow m G secs).2 (cs ++ [c]) (addSections grow m G secs).1 := by
  unfold addSections
  by_cases h0 : G.length = 0
  · left
    simp only [h0, if_true]
    apply seedSchedules_attributed c secs G m hR
    have : G = [] := List.length_eq_zero.mp h0
    subst this
    intro t ht
    simp at ht
  · right
    simp only [h0, if_false]
    apply extendSchedules_attributed grow secs c cs G hR G [] m (fun s hs => hs) hG
    intro t ht
    simp at ht

theorem isCandidate_of_createSections (db : CourseDatabase) (c : String)
    (secs : List CourseSection) (h : createSections db c lectureTypes = some secs) :
    ∀ x ∈ secs, isCandidate db c x = true := by
  intro x hx
  simp [isCandidate, h, hx]

theorem createFrom_attributed (grow : Nat → Nat) (db : CourseDatabase) :
    ∀ (rest : List String) (st : List Schedule × Memory) (cs : List String)
      (res : List Schedule × Memory),
      Attributed (fun sec c => isCandidate db c sec = true) st.2 cs st.1 →
      createFrom grow db rest st = some res →
      ∃ cs', cs'.Sublist (cs ++ rest) ∧
        Attributed (fun sec c => isCandidate db c sec = true) res.2 cs' res.1
  | [], st, cs, res, hA, h => by
    simp only [createFrom, Option.some.injEq] at h
    subst h
    exact ⟨cs, by simp, hA⟩
  | c :: more, st, cs, res, hA, h => by
    simp only [createFrom] at h
    by_cases hc : courseExists db c = true
    · simp only [hc, Bool.not_true, Bool.false_eq_true, if_false] at h
      cases hsec : createSections db c lectureTypes with
      | none => simp [hsec] at h
      | some secs =>
        simp only [hsec] at h
        rcases addSections_attributed grow st.2 st.1 secs c cs
          (isCandidate_of_createSections db c secs hsec) hA with hA' | hA'
        · obtain ⟨cs', hsub, hres⟩ := createFrom_attributed grow db more _ [c] res hA' h
          refine ⟨cs', ?_, hres⟩
          exact hsub.trans (List.sublist_append_right cs (c :: more))
        · obtain ⟨cs', hsub, hres⟩ := createFrom_attributed grow db more _ (cs ++ [c]) res hA' h
          refine ⟨cs', ?_, hres⟩
          simpa using hsub
    · simp only [Bool.not_eq_true] at hc
      simp only [hc, Bool.not_false, if_true] at h
      obtain ⟨cs', hsub, hres⟩ := createFrom_attributed grow db more st cs res hA h
      refine ⟨cs', ?_, hres⟩
      exact hsub.trans (List.Sublist.append_left (List.sublist_cons_self c more) cs)

theorem mem_of_lookup {α : Type} (k : String) (v : α) :
    ∀ l : List (String × α), l.lookup k = some v → (k, v) ∈ l
  | [], h => by simp at h
  | (k', v') :: t, h => by
    by_cases hk : k = k'
    · subst hk
      simp [List.lookup] at h
      simp [h]
    · have hb : (k == k') = false := by simpa using hk
      simp only [List.lookup, hb] at h
      exact List.mem_cons_of_mem _ (mem_of_lookup k v t h)

theorem mem_courseNames (c : String) (e : List (String × Section))
    (courses : List (String × List (String × Section))) (dept : String)
    (hc : (c, e) ∈ courses) :
    ∀ db : CourseDatabase, (dept, courses) ∈ db → c ∈ courseNames db
  | [], h => by simp at h
  | d :: more, h => by
    simp only [courseNames, List.mem_append]
    rcases List.mem_cons.mp h with h | h
    · left
      subst h
      exact List.mem_map.mpr ⟨(c, e), hc, rfl⟩
    · right
      exact mem_courseNames c e courses dept hc more h

theorem isCandidate_courseNames (db : CourseDatabase) (c : String) (sec : CourseSection)
    (h : isCandidate db c sec = true) : c ∈ courseNames db := by
  unfold isCandidate createSections at h
  cases hl : lookupCourse db (deptOf c) c with
  | none => simp [hl] at h
  | some e =>
    unfold lookupCourse at hl
    cases hd : db.lookup (deptOf c) with
    | none => simp [hd] at hl
    | some courses =>
      simp only [hd] at hl
      exact mem_courseNames c e courses (deptOf c) (mem_of_lookup _ _ _ hl) db
        (mem_of_lookup _ _ _ hd)

theorem createFrom_filter (grow : Nat → Nat) (db : CourseDatabase) (courses : List String)
    (st : List Schedule × Memory) :
    createFrom grow db courses st = createFrom grow db (courses.filter (courseExists db)) st := by
  induction courses generalizing st with
  | nil => rfl
  | cons c more ih =>
    by_cases hc : courseExists db c = true
    · rw [List.filter_cons_of_pos hc]
      simp only [createFrom, hc]
      cases createSections db c lectureTypes with
      | none => rfl
      | some secs => exact ih _
    · rw [List.filter_cons_of_neg hc]
      simp only [createFrom]
      simp only [Bool.not_eq_true] at hc
      simp only [hc]
      exact ih st

/-! ## Create -/

/-- C1, at a failing input: on `overwriteRequest` the schedule `Create` returns
holds `math101b`, which conflicts with `cpsc110`, and `conflictInSchedule` is
true on it. The extension by `math101a` was accepted; the later `append` of the
rejected `math101b` wrote into the same backing array. -/
theorem Create_returns_conflicting_schedule :
    createdSchedules doubling catalog overwriteRequest
      = some [[cpsc110, cpsc121, math100, math101b]] ∧
    (Create doubling catalog overwriteRequest).map
      (fun r => r.1.map (conflictInSchedule r.2)) = some [true] := by
  decide

/-- C2, at a failing input: on `sharedRequest` the selection
`cpsc110, cpsc121, math100, math200a` takes one candidate section of each
recognized course in request order and is free of conflicts, yet it is not
among the schedules `Create` returns: both returned schedules read as the
selection that ends in `math200b`. -/
theorem Create_drops_valid_selection :
    List.Forall₂ (fun sec c => isCandidate catalog c sec = true)
      [cpsc110, cpsc121, math100, math200a]
      (sharedRequest.filter (courseExists catalog)) ∧
    conflictInCourses [cpsc110, cpsc121, math100, math200a] = false ∧
    createdSchedules doubling catalog sharedRequest
      = some [[cpsc110, cpsc121, math100, math200b], [cpsc110, cpsc121, math100, math200b]] ∧
    [cpsc110, cpsc121, math100, math200a] ∉
      [[cpsc110, cpsc121, math100, math200b], [cpsc110, cpsc121, math100, math200b]] := by
  refine ⟨?_, by decide, by decide, by decide⟩
  have hf : sharedRequest.filter (courseExists catalog)
      = ["CPSC 110", "CPSC 121", "MATH 100", "MATH 200"] := by decide
  rw [hf]
  simp only [List.forall₂_cons, List.Forall₂.nil, and_true]
  decide

/-- C3, at a failing input: all three identifiers of `reseedRequest` are
recognized, yet the one schedule `Create` returns has a single section, the one of
the third course. -/
theorem Create_returns_partial_schedule :
    (reseedRequest.filter (courseExists catalog)).length = 3 ∧
    createSections catalog "CPSC 121" lectureTypes = some [cpsc121] ∧
    createdSchedules doubling catalog reseedRequest = some [[cpsc121]] := by
  decide

/-- C6, at a failing input: the three courses of `blockedRequest` are recognized
and every selection of one candidate section per course has a conflict, yet
`Create` returns a schedule. -/
theorem Create_nonempty_when_all_conflict :
    (blockedRequest.filter (courseExists catalog)).length = 3 ∧
    (∀ sel : List CourseSection,
      List.Forall₂ (fun sec c => isCandidate catalog c sec = true) sel
        (blockedRequest.filter (courseExists catalog)) →
      conflictInCourses sel = true) ∧
    createdSchedules doubling catalog blockedRequest = some [[math100]] := by
  refine ⟨by decide, ?_, by decide⟩
  have hf : blockedRequest.filter (courseExists catalog)
      = ["CPSC 110", "MATH 102", "MATH 100"] := by decide
  rw [hf]
  intro sel h
  obtain ⟨a, l1, ha, h1, rfl⟩ := List.forall₂_cons_right_iff.mp h
  obtain ⟨b, l2, hb, h2, rfl⟩ := List.forall₂_cons_right_iff.mp h1
  obtain ⟨c, l3, hc, h3, rfl⟩ := List.forall₂_cons_right_iff.mp h2
  have hnil : l3 = [] := by cases h3; rfl
  subst hnil
  have e1 : createSections catalog "CPSC 110" lectureTypes = some [cpsc110] := by decide
  have e2 : createSections catalog "MATH 102" lectureTypes = some [math102] := by decide
  have e3 : createSections catalog "MATH 100" lectureTypes = some [math100] := by decide
  simp only [isCandidate, e1, e2, e3, List.mem_singleton, decide_eq_true_eq] at ha hb hc
  subst ha hb hc
  decide

/-- C7, as stated, fails: for the request that names `MATH 200` twice, `Create`
returns a schedule whose two sections cannot be attributed to two different
courses of the catalog; both are sections of `MATH 200`. -/
theorem Create_repeats_course_of_repeated_identifier :
    ∃ result : List (List CourseSection),
      createdSchedules doubling catalog ["MATH 200", "MATH 200"] = some result ∧
      ∃ secs ∈ result, ¬ ∃ cs : List String, cs.Nodup ∧
        List.Forall₂ (fun sec c => isCandidate catalog c sec = true) secs cs := by
  refine ⟨[[math200a, math200a], [math200a, math200b], [math200b, math200a],
    [math200b, math200b]], by decide, [math200a, math200a], by simp, ?_⟩
  rintro ⟨cs, hnd, hf⟩
  have key : ∀ c : String, isCandidate catalog c math200a = true → c = "MATH 200" := by
    intro c hc
    have hmem := isCandidate_courseNames catalog c math200a hc
    simp only [courseNames, catalog, List.map, List.append_nil, List.cons_append,
      List.nil_append, List.mem_cons, List.mem_singleton] at hmem
    rcases hmem with h | h | h | h | h | h | h
    · subst h; exact absurd hc (by decide)
    · subst h; exact absurd hc (by decide)
    · subst h; exact absurd hc (by decide)
    · subst h; exact absurd hc (by decide)
    · subst h; exact absurd hc (by decide)
    · exact h
    · simp at h
  obtain ⟨c1, l1, h1, hf1, rfl⟩ := List.forall₂_cons_left_iff.mp hf
  obtain ⟨c2, l2, h2, hf2, rfl⟩ := List.forall₂_cons_left_iff.mp hf1
  rw [key c1 h1, key c2 h2] at hnd
  simp at hnd

/-- C7, amended: for every list of pairwise distinct course identifiers and every
schedule `Create` returns, the sections of the schedule are candidate sections,
position by position, of pairwise distinct courses, which are requested
identifiers in request order. This holds whatever capacity `append` allocates. -/
theorem Create_sections_from_distinct_courses (grow : Nat → Nat) (db : CourseDatabase)
    (courses : List String) (schedules : List Schedule) (m : Memory)
    (hnd : courses.Nodup) (hres : Create grow db courses = some (schedules, m)) :
    ∀ s ∈ schedules, ∃ cs : List String, cs.Nodup ∧ cs.Sublist courses ∧
      List.Forall₂ (fun sec c => isCandidate db c sec = true) (s.sections m) cs := by
  intro s hs
  obtain ⟨cs, hsub, hA⟩ := createFrom_attributed grow db courses ([], []) [] (schedules, m)
    (by intro t ht; simp at ht) hres
  simp only [List.nil_append] at hsub
  exact ⟨cs, hnd.sublist hsub, hsub, (hA s hs).2⟩

theorem Create_sections_from_distinct_courses_witness :
    ["CPSC 110", "CPSC 121"].Nodup ∧
    Create doubling catalog ["CPSC 110", "CPSC 121"]
      = some ([{ Courses := { ptr := 1, len := 2, cap := 2 } }],
          [[cpsc110], [cpsc110, cpsc121]]) ∧
    ∃ cs : List String, cs.Nodup ∧ cs.Sublist ["CPSC 110", "CPSC 121"] ∧
      List.Forall₂ (fun sec c => isCandidate catalog c sec = true)
        (({ Courses := { ptr := 1, len := 2, cap := 2 } } : Schedule).sections
          [[cpsc110], [cpsc110, cpsc121]]) cs :=
  ⟨by decide, by decide,
    Create_sections_from_distinct_courses doubling catalog ["CPSC 110", "CPSC 121"]
      [{ Courses := { ptr := 1, len := 2, cap := 2 } }] [[cpsc110], [cpsc110, cpsc121]]
      (by decide) (by decide) { Courses := { ptr := 1, len := 2, cap := 2 } } (by simp)⟩

/-- C8: `Create` gives the same result, memory included, on a request and on the
request with every identifier that `courseExists` rejects removed; when no
identifier is recognized it returns the empty sequence. -/
theorem Create_ignores_unrecognized (grow : Nat → Nat) (db : CourseDatabase)
    (courses : List String) :
    Create grow db courses = Create grow db (courses.filter (courseExists db)) ∧
      ((∀ c ∈ courses, courseExists db c = false) → Create grow db courses = some ([], [])) := by
  refine ⟨createFrom_filter grow db courses _, ?_⟩
  intro h
  have hf : courses.filter (courseExists db) = [] := by
    rw [List.filter_eq_nil_iff]
    intro c hc
    simp [h c hc]
  unfold Create
  rw [createFrom_filter, hf]
  rfl

theorem Create_ignores_unrecognized_witness :
    (∀ c ∈ ["PHIL 999", "CPSC 999"], courseExists catalog c = false) ∧
    Create doubling catalog ["PHIL 999", "CPSC 999"] = some ([], []) ∧
    Create doubling catalog ["PHIL 999", "CPSC 110", "CPSC 999"]
      = Create doubling catalog ["CPSC 110"] :=
  ⟨by decide,
    (Create_ignores_unrecognized doubling catalog ["PHIL 999", "CPSC 999"]).2 (by decide),
    (Create_ignores_unrecognized doubling catalog ["PHIL 999", "CPSC 110", "CPSC 999"]).1⟩

/-! ## Section filter, exact runs and extension -/

theorem sessionsOfSlot_eq (s : Section) (i : Nat) (st en act term : String)
    (h1 : s.StartTime[i]? = some st) (h2 : s.EndTime[i]? = some en)
    (h3 : s.Activity[i]? = some act) (h4 : s.Term[i]? = some term) :
    ∀ days : List String, sessionsOfSlot s i days = some (days.map (fun day =>
      { Activity := act, Term := term, Day := day,
        Start := (Atoi (removeColons st)).1, End := (Atoi (removeColons en)).1 }))
  | [] => rfl
  | day :: more => by
    simp only [sessionsOfSlot, h1, h2, h3, h4, sessionsOfSlot_eq s i st en act term h1 h2 h3 h4 more,
      List.map_cons]

theorem getElem?_of_lt_getD (l : List String) (i : Nat) (h : i < l.length) :
    l[i]? = some (l.getD i "") := by
  simp [List.getD_eq_getElem?_getD, List.getElem?_eq_getElem h]

theorem sessionsFrom_eq (s : Section) :
    ∀ (days : List String) (i : Nat),
      (∀ k, k < days.length → s.Days[i + k]? = days[k]?) →
      i + days.length ≤ s.Activity.length → i + days.length ≤ s.Term.length →
      i + days.length ≤ s.StartTime.length → i + days.length ≤ s.EndTime.length →
      sessionsFrom s i days = some ((List.range' i days.length).flatMap (slotSessions s))
  | [], i, _, _, _, _, _ => by simp [sessionsFrom]
  | d :: more, i, hd, ha, ht, hs, he => by
    simp only [List.length_cons] at ha ht hs he
    have hd0 : s.Days[i]? = some d := by simpa using hd 0 (by simp)
    have hrest : ∀ k, k < more.length → s.Days[i + 1 + k]? = more[k]? := by
      intro k hk
      have := hd (k + 1) (by simp; omega)
      simpa [Nat.add_assoc, Nat.add_comm 1 k] using this
    have ih := sessionsFrom_eq s more (i + 1) hrest (by omega) (by omega) (by omega) (by omega)
    have hslot := sessionsOfSlot_eq s i _ _ _ _
      (getElem?_of_lt_getD s.StartTime i (by omega)) (getElem?_of_lt_getD s.EndTime i (by omega))
      (getElem?_of_lt_getD s.Activity i (by omega)) (getElem?_of_lt_getD s.Term i (by omega))
      (Split d ' ')
    have hgd : s.Days.getD i "" = d := by simp [List.getD_eq_getElem?_getD, hd0]
    simp only [sessionsFrom, hslot, ih, List.length_cons, List.range'_succ, List.flatMap_cons,
      slotSessions, hgd]

theorem sessionsFrom_complete (s : Section) (h : completeRecord s = true) :
    sessionsFrom s 0 s.Days = some (recordSection "" s).Sessions := by
  simp only [completeRecord, Bool.and_eq_true, decide_eq_true_eq] at h
  obtain ⟨⟨⟨⟨-, ha⟩, ht⟩, hs⟩, he⟩ := h
  have := sessionsFrom_eq s s.Days 0 (by intro k _; simp) (by omega) (by omega) (by omega)
    (by omega)
  rw [this, recordSection, List.range_eq_range']

theorem isIncluded_lectureTypes (a : String) :
    isIncluded a lectureTypes = decide (a ∈ ["Lecture", "Seminar", "Studio"]) := by
  rw [Bool.eq_iff_iff]
  simp [isIncluded, lectureTypes, ActivityType.toString]

theorem validIn_extend (m ext : Memory) (t : Slice) (ht : t.ValidIn m) :
    t.ValidIn (m ++ ext) ∧ (m ++ ext).read t = m.read t := by
  obtain ⟨htp, htlc, htca⟩ := ht
  have hg : (m ++ ext).getD t.ptr [] = m.getD t.ptr [] := by
    simp [List.getD_eq_getElem?_getD, List.getElem?_append_left htp]
  refine ⟨⟨by simp; omega, htlc, by rw [hg]; exact htca⟩, ?_⟩
  simp only [Memory.read, hg]

theorem appendSection_full (grow : Nat → Nat) (m : Memory) (s : Slice) (x : CourseSection)
    (hv : s.ValidIn m) (hfull : s.cap ≤ s.len) :
    ∃ a, (appendSection grow m s x).1 = m ++ [a] ∧
      (appendSection grow m s x).2.ValidIn (m ++ [a]) ∧
      (m ++ [a]).read (appendSection grow m s x).2 = m.read s ++ [x] := by
  obtain ⟨-, -, hread, hvalid⟩ := appendSection_frame grow m s x hv
  have hnot : ¬ s.len < s.cap := by omega
  have hm : (appendSection grow m s x).1
      = m ++ [m.read s ++ x :: List.replicate
          (max (s.len + 1) (grow s.cap) - (s.len + 1)) zeroSection] := by
    simp only [appendSection, hnot, if_false]
  refine ⟨_, hm, ?_, ?_⟩
  · rw [← hm]; exact hvalid
  · rw [← hm]; exact hread

theorem extendSchedule_cons (grow : Nat → Nat) (s0 : Schedule) (x : CourseSection)
    (more : List CourseSection) (N : List Schedule) (m : Memory) :
    extendSchedule grow s0 (x :: more) (N, m)
      = extendSchedule grow s0 more
          ((if conflictInCourses
                ((appendSection grow m s0.Courses x).1.read (appendSection grow m s0.Courses x).2)
              = true
            then N else N ++ [{ Courses := (appendSection grow m s0.Courses x).2 }]),
            (appendSection grow m s0.Courses x).1) := by
  simp only [extendSchedule, addSection, conflictInSchedule, Schedule.sections]
  split <;> simp

theorem extendSchedule_full (grow : Nat → Nat) (s0 : Schedule) :
    ∀ (secs : List CourseSection) (N : List Schedule) (m : Memory),
      s0.Courses.ValidIn m → s0.Courses.cap ≤ s0.Courses.len →
      (∀ t ∈ N, t.Courses.ValidIn m) →
      ∃ ext, (extendSchedule grow s0 secs (N, m)).2 = m ++ ext ∧
        (∀ t ∈ (extendSchedule grow s0 secs (N, m)).1, t.Courses.ValidIn (m ++ ext)) ∧
        (extendSchedule grow s0 secs (N, m)).1.map (fun t => t.sections (m ++ ext))
          = N.map (fun t => t.sections m) ++ acceptedExtensions (s0.sections m) secs
  | [], N, m, _, _, hN => ⟨[], by simp [extendSchedule], by simpa [extendSchedule] using hN,
      by simp [extendSchedule, acceptedExtensions]⟩
  | x :: more, N, m, hv, hfull, hN => by
    obtain ⟨a, hm, hnv, hnr⟩ := appendSection_full grow m s0.Courses x hv hfull
    have hs0 := validIn_extend m [a] s0.Courses hv
    have hN1 : ∀ t ∈ N, t.Courses.ValidIn (m ++ [a]) :=
      fun t ht => (validIn_extend m [a] t.Courses (hN t ht)).1
    have hNr : N.map (fun t => t.sections (m ++ [a])) = N.map (fun t => t.sections m) := by
      apply List.map_congr_left
      intro t ht
      exact (validIn_extend m [a] t.Courses (hN t ht)).2
    have hs0r : s0.sections (m ++ [a]) = s0.sections m := hs0.2
    rw [extendSchedule_cons, hm, hnr]
    by_cases hc : conflictInCourses (m.read s0.Courses ++ [x]) = true
    · simp only [hc, if_true]
      obtain ⟨ext, h1, h2, h3⟩ := extendSchedule_full grow s0 more N (m ++ [a]) hs0.1 hfull hN1
      rw [hNr, hs0r, List.append_assoc] at h3
      rw [List.append_assoc] at h1 h2
      refine ⟨[a] ++ ext, h1, h2, ?_⟩
      rw [h3]
      simp [acceptedExtensions, Schedule.sections, hc]
    · simp only [hc, Bool.false_eq_true, if_false]
      have hN2 : ∀ t ∈ N ++ [{ Courses := (appendSection grow m s0.Courses x).2 }],
          t.Courses.ValidIn (m ++ [a]) := by
        intro t ht
        rcases List.mem_append.mp ht with ht | ht
        · exact hN1 t ht
        · rw [List.mem_singleton] at ht
          subst ht
          exact hnv
      obtain ⟨ext, h1, h2, h3⟩ := extendSchedule_full grow s0 more _ (m ++ [a]) hs0.1 hfull hN2
      rw [List.map_append, hNr, hs0r, List.append_assoc] at h3
      rw [List.append_assoc] at h1 h2
      refine ⟨[a] ++ ext, h1, h2, ?_⟩
      rw [h3]
      simp [acceptedExtensions, Schedule.sections, hc, hnr]

theorem extendSchedules_full (grow : Nat → Nat) (secs : List CourseSection) :
    ∀ (G N : List Schedule) (m : Memory),
      (∀ s ∈ G, s.Courses.ValidIn m ∧ s.Courses.cap ≤ s.Courses.len) →
      (∀ t ∈ N, t.Courses.ValidIn m) →
      ∃ ext, (extendSchedules grow secs G (N, m)).2 = m ++ ext ∧
        (∀ t ∈ (extendSchedules grow secs G (N, m)).1, t.Courses.ValidIn (m ++ ext)) ∧
        (extendSchedules grow secs G (N, m)).1.map (fun t => t.sections (m ++ ext))
          = N.map (fun t => t.sections m) ++
              (G.map (fun s => s.sections m)).flatMap (fun p => acceptedExtensions p secs)
  | [], N, m, _, hN => ⟨[], by simp [extendSchedules], by simpa [extendSchedules] using hN,
      by simp [extendSchedules]⟩
  | s0 :: rest, N, m, hG, hN => by
    obtain ⟨hv, hfull⟩ := hG s0 (List.mem_cons_self _ _)
    obtain ⟨ext1, h1, h2, h3⟩ := extendSchedule_full grow s0 secs N m hv hfull hN
    have hpair : extendSchedule grow s0 secs (N, m)
        = ((extendSchedule grow s0 secs (N, m)).1, m ++ ext1) := by
      rw [← h1]
    have hrest : ∀ s ∈ rest, s.Courses.ValidIn (m ++ ext1) ∧ s.Courses.cap ≤ s.Courses.len :=
      fun s hs => ⟨(validIn_extend m ext1 s.Courses
        (hG s (List.mem_cons_of_mem _ hs)).1).1, (hG s (List.mem_cons_of_mem _ hs)).2⟩
    have hrr : rest.map (fun s => s.sections (m ++ ext1)) = rest.map (fun s => s.sections m) := by
      apply List.map_congr_left
      intro s hs
      exact (validIn_extend m ext1 s.Courses (hG s (List.mem_cons_of_mem _ hs)).1).2
    obtain ⟨ext2, k1, k2, k3⟩ := extendSchedules_full grow secs rest
      (extendSchedule grow s0 secs (N, m)).1 (m ++ ext1) hrest h2
    simp only [extendSchedules]
    rw [hpair]
    rw [List.append_assoc] at k1 k2 k3
    refine ⟨ext1 ++ ext2, k1, k2, ?_⟩
    rw [k3, h3, hrr]
    simp [List.flatMap_cons, List.append_assoc]

theorem seedSchedules_read :
    ∀ (secs : List CourseSection) (N : List Schedule) (m : Memory),
      (∀ t ∈ N, t.Courses.ValidIn m ∧ t.Courses.cap ≤ t.Courses.len) →
      ∃ ext, (seedSchedules secs (N, m)).2 = m ++ ext ∧
        (∀ t ∈ (seedSchedules secs (N, m)).1,
          t.Courses.ValidIn (m ++ ext) ∧ t.Courses.cap ≤ t.Courses.len) ∧
        (seedSchedules secs (N, m)).1.map (fun t => t.sections (m ++ ext))
          = N.map (fun t => t.sections m) ++ secs.map (fun x => [x])
  | [], N, m, hN => ⟨[], by simp [seedSchedules], by simpa [seedSchedules] using hN,
      by simp [seedSchedules]⟩
  | x :: more, N, m, hN => by
    have hN1 : ∀ t ∈ N ++ [{ Courses := { ptr := m.length, len := 1, cap := 1 } }],
        t.Courses.ValidIn (m ++ [[x]]) ∧ t.Courses.cap ≤ t.Courses.len := by
      intro t ht
      rcases List.mem_append.mp ht with ht | ht
      · exact ⟨(validIn_extend m [[x]] t.Courses (hN t ht).1).1, (hN t ht).2⟩
      · rw [List.mem_singleton] at ht
        subst ht
        exact ⟨⟨by simp, by simp, by simp [List.getD_eq_getElem?_getD]⟩, by simp⟩
    have hNr : N.map (fun t => t.sections (m ++ [[x]])) = N.map (fun t => t.sections m) := by
      apply List.map_congr_left
      intro t ht
      exact (validIn_extend m [[x]] t.Courses (hN t ht).1).2
    have hnew : ({ Courses := { ptr := m.length, len := 1, cap := 1 } } : Schedule).sections
        (m ++ [[x]]) = [x] := by
      simp only [Schedule.sections, Memory.read, List.getD_eq_getElem?_getD]
      rw [List.getElem?_append_right (le_refl _)]
      simp
    obtain ⟨ext, h1, h2, h3⟩ := seedSchedules_read more _ (m ++ [[x]]) hN1
    simp only [seedSchedules, singletonSlice]
    rw [List.append_assoc] at h1 h2 h3
    refine ⟨[[x]] ++ ext, h1, h2, ?_⟩
    rw [h3, List.map_append, hNr]
    simp [hnew]

theorem createdSchedules_filter (grow : Nat → Nat) (db : CourseDatabase)
    (courses : List String) :
    createdSchedules grow db courses
      = createdSchedules grow db (courses.filter (courseExists db)) := by
  unfold createdSchedules Create
  rw [createFrom_filter]

theorem createdSchedules_single (grow : Nat → Nat) (db : CourseDatabase) (c : String)
    (secs : List CourseSection) (hc : courseExists db c = true)
    (hs : createSections db c lectureTypes = some secs) :
    createdSchedules grow db [c] = some (secs.map (fun x => [x])) := by
  obtain ⟨ext, h1, -, h3⟩ := seedSchedules_read secs [] [] (by intro t ht; simp at ht)
  simp only [createdSchedules, Create, createFrom, hc, hs, addSections, Bool.not_true,
    Bool.false_eq_true, if_false, List.length_nil, if_true, Option.map_some']
  rw [h1]
  simpa using h3

theorem createdSchedules_pair (grow : Nat → Nat) (db : CourseDatabase) (A B : String)
    (secsA secsB : List CourseSection) (hA : courseExists db A = true)
    (hB : courseExists db B = true) (hsA : createSections db A lectureTypes = some secsA)
    (hsB : createSections db B lectureTypes = some secsB) (hne : secsA ≠ []) :
    createdSchedules grow db [A, B]
      = some ((secsA.map (fun a => [a])).flatMap (fun p => acceptedExtensions p secsB)) := by
  obtain ⟨ext, h1, h2, h3⟩ := seedSchedules_read secsA [] [] (by intro t ht; simp at ht)
  have hlen : (seedSchedules secsA ([], [])).1.length ≠ 0 := by
    have := congrArg List.length h3
    simp only [List.length_map, List.map_nil, List.nil_append] at this
    rw [this]
    cases secsA with
    | nil => exact absurd rfl hne
    | cons a r => simp
  obtain ⟨ext2, k1, -, k3⟩ := extendSchedules_full grow secsB (seedSchedules secsA ([], [])).1 []
    ([] ++ ext) h2 (by intro t ht; simp at ht)
  simp only [createdSchedules, Create, createFrom, hA, hB, hsA, hsB, addSections, Bool.not_true,
    Bool.false_eq_true, if_false, List.length_nil, if_true, Option.map_some', hlen]
  rw [h1, k1, k3, h3]
  simp

theorem take_succ_set (x : CourseSection) :
    ∀ (L : Nat) (arr : List CourseSection), L < arr.length →
      (arr.set L x).take (L + 1) = arr.take L ++ [x]
  | 0, [], h => by simp at h
  | 0, a :: rest, _ => by simp
  | L + 1, [], h => by simp at h
  | L + 1, a :: rest, h => by
    simp only [List.set_cons_succ, List.take_succ_cons, List.cons_append]
    rw [take_succ_set x L rest (by simpa using h)]

/-- Reads before and after one `append` on `s`: a slice no longer than `s` reads
the same; a slice one longer keeps its first cells and ends in its old last
element or in the appended one. -/
theorem read_after_append (grow : Nat → Nat) (m : Memory) (s t : Slice) (x : CourseSection)
    (hs : s.ValidIn m) (ht : t.ValidIn m) :
    t.ValidIn (appendSection grow m s x).1 ∧
    (t.len = s.len → (appendSection grow m s x).1.read t = m.read t) ∧
    (t.len = s.len + 1 →
      (appendSection grow m s x).1.read t = m.read t ∨
      (appendSection grow m s x).1.read t = (m.read t).take s.len ++ [x]) := by
  obtain ⟨hframe, hlen, -, -⟩ := appendSection_frame grow m s x hs
  obtain ⟨htp, htlc, htca⟩ := ht
  rcases hframe t.ptr htp with he | he
  · refine ⟨⟨by omega, htlc, by rw [he]; exact htca⟩, ?_, ?_⟩
    · intro _; simp only [Memory.read, he]
    · intro _; left; simp only [Memory.read, he]
  · refine ⟨⟨by omega, htlc, by rw [he]; simpa using htca⟩, ?_, ?_⟩
    · intro hl
      simp only [Memory.read, he]
      rw [hl, take_set_self]
    · intro hl
      right
      simp only [Memory.read, he]
      rw [hl, take_succ_set x s.len _ (by omega), List.take_take]
      simp

theorem extendSchedule_sound (grow : Nat → Nat) (m0 : Memory) (G : List Schedule)
    (secs : List CourseSection) (schedule : Schedule) (hmem : schedule ∈ G) :
    ∀ (todo : List CourseSection) (N : List Schedule) (m : Memory),
      (∀ x ∈ todo, x ∈ secs) →
      (∀ s ∈ G, s.Courses.ValidIn m ∧ s.Courses.len = schedule.Courses.len ∧
        m.read s.Courses = m0.read s.Courses) →
      (∀ t ∈ N, t.Courses.ValidIn m ∧ t.Courses.len = schedule.Courses.len + 1 ∧
        ∃ s ∈ G, ∃ x ∈ secs, m.read t.Courses = m0.read s.Courses ++ [x]) →
      (∀ s ∈ G, s.Courses.ValidIn (extendSchedule grow schedule todo (N, m)).2 ∧
        s.Courses.len = schedule.Courses.len ∧
        (extendSchedule grow schedule todo (N, m)).2.read s.Courses = m0.read s.Courses) ∧
      (∀ t ∈ (extendSchedule grow schedule todo (N, m)).1,
        t.Courses.ValidIn (extendSchedule grow schedule todo (N, m)).2 ∧
        t.Courses.len = schedule.Courses.len + 1 ∧
        ∃ s ∈ G, ∃ x ∈ secs,
          (extendSchedule grow schedule todo (N, m)).2.read t.Courses = m0.read s.Courses ++ [x])
  | [], N, m, _, hG, hN => ⟨hG, hN⟩
  | x :: more, N, m, hsub, hG, hN => by
    have hx : x ∈ secs := hsub x (List.mem_cons_self _ _)
    obtain ⟨hsv, -, hsr⟩ := hG schedule hmem
    obtain ⟨-, -, hread, hvalid⟩ := appendSection_frame grow m schedule.Courses x hsv
    have hG1 : ∀ s ∈ G, s.Courses.ValidIn (appendSection grow m schedule.Courses x).1 ∧
        s.Courses.len = schedule.Courses.len ∧
        (appendSection grow m schedule.Courses x).1.read s.Courses = m0.read s.Courses := by
      intro s hs
      obtain ⟨h1, h2, h3⟩ := hG s hs
      obtain ⟨k1, k2, -⟩ := read_after_append grow m schedule.Courses s.Courses x hsv h1
      exact ⟨k1, h2, by rw [k2 h2, h3]⟩
    have hN1 : ∀ t ∈ N, t.Courses.ValidIn (appendSection grow m schedule.Courses x).1 ∧
        t.Courses.len = schedule.Courses.len + 1 ∧
        ∃ s ∈ G, ∃ y ∈ secs,
          (appendSection grow m schedule.Courses x).1.read t.Courses = m0.read s.Courses ++ [y] := by
      intro t ht
      obtain ⟨h1, h2, s, hs, y, hy, h3⟩ := hN t ht
      obtain ⟨k1, -, k3⟩ := read_after_append grow m schedule.Courses t.Courses x hsv h1
      refine ⟨k1, h2, s, hs, ?_⟩
      rcases k3 h2 with k | k
      · exact ⟨y, hy, by rw [k, h3]⟩
      · refine ⟨x, hx, ?_⟩
        have hl : (m0.read s.Courses).length = schedule.Courses.len := by
          obtain ⟨g1, g2, g3⟩ := hG s hs
          rw [← g3, read_length m s.Courses g1, g2]
        rw [k, h3, List.take_append_of_le_length (by omega), List.take_of_length_le (by omega)]
    have hnew : (appendSection grow m schedule.Courses x).2.len = schedule.Courses.len + 1 := by
      unfold appendSection
      split <;> rfl
    have hN2 : ∀ t ∈ N ++ [{ Courses := (appendSection grow m schedule.Courses x).2 }],
        t.Courses.ValidIn (appendSection grow m schedule.Courses x).1 ∧
        t.Courses.len = schedule.Courses.len + 1 ∧
        ∃ s ∈ G, ∃ y ∈ secs,
          (appendSection grow m schedule.Courses x).1.read t.Courses = m0.read s.Courses ++ [y] := by
      intro t ht
      rcases List.mem_append.mp ht with ht | ht
      · exact hN1 t ht
      · rw [List.mem_singleton] at ht
        subst ht
        exact ⟨hvalid, hnew, schedule, hmem, x, hx, by rw [hread, hsr]⟩
    rw [extendSchedule_cons]
    split
    · exact extendSchedule_sound grow m0 G secs schedule hmem more N _
        (fun y hy => hsub y (List.mem_cons_of_mem _ hy)) hG1 hN1
    · exact extendSchedule_sound grow m0 G secs schedule hmem more _ _
        (fun y hy => hsub y (List.mem_cons_of_mem _ hy)) hG1 hN2

theorem extendSchedules_sound (grow : Nat → Nat) (m0 : Memory) (G : List Schedule)
    (secs : List CourseSection) (L : Nat) :
    ∀ (todo N : List Schedule) (m : Memory),
      (∀ s ∈ todo, s ∈ G) →
      (∀ s ∈ G, s.Courses.ValidIn m ∧ s.Courses.len = L ∧
        m.read s.Courses = m0.read s.Courses) →
      (∀ t ∈ N, t.Courses.ValidIn m ∧ t.Courses.len = L + 1 ∧
        ∃ s ∈ G, ∃ x ∈ secs, m.read t.Courses = m0.read s.Courses ++ [x]) →
      ∀ t ∈ (extendSchedules grow secs todo (N, m)).1,
        ∃ s ∈ G, ∃ x ∈ secs,
          (extendSchedules grow secs todo (N, m)).2.read t.Courses = m0.read s.Courses ++ [x]
  | [], N, m, _, _, hN => by
    intro t ht
    obtain ⟨-, -, h⟩ := hN t ht
    exact h
  | schedule :: rest, N, m, hsub, hG, hN => by
    have hmem : schedule ∈ G := hsub schedule (List.mem_cons_self _ _)
    have hL : schedule.Courses.len = L := (hG schedule hmem).2.1
    obtain ⟨h1, h2⟩ := extendSchedule_sound grow m0 G secs schedule hmem secs N m
      (fun x hx => hx) (by rw [hL]; exact hG) (by rw [hL]; exact hN)
    rw [hL] at h1 h2
    simp only [extendSchedules]
    exact extendSchedules_sound grow m0 G secs L rest _ _
      (fun s hs => hsub s (List.mem_cons_of_mem _ hs)) h1 h2

theorem createFrom_append (grow : Nat → Nat) (db : CourseDatabase) (more : List String) :
    ∀ (courses : List String) (st : List Schedule × Memory),
      createFrom grow db (courses ++ more) st
        = (createFrom grow db courses st).bind (createFrom grow db more)
  | [], st => by simp [createFrom]
  | c :: rest, st => by
    simp only [List.cons_append, createFrom]
    split
    · exact createFrom_append grow db more rest st
    · cases createSections db c lectureTypes with
      | none => rfl
      | some secs => exact createFrom_append grow db more rest _

/-- C11, at a failing input: in `untimedCatalog` the start time `9.00` of the
Monday lecture of `MATH 100` does not parse, `createSections` gives its session the
start 0, the session then conflicts with the Monday 08:00 to 09:00 lecture of
`CPSC 110`, and `Create` rejects the extension and returns no schedule. -/
theorem unparsed_session_blocks_extension :
    Atoi (removeColons "9.00") = (0, false) ∧
    createSections untimedCatalog "MATH 100" lectureTypes = some [untimedSection] ∧
    createSections untimedCatalog "CPSC 110" lectureTypes = some [earlySection] ∧
    conflictSection untimedSection earlySection = true ∧
    createdSchedules doubling untimedCatalog ["CPSC 110", "MATH 100"] = some [] := by
  decide

/-- C12, as stated, fails: `CPSC 110` of `brokenCatalog` is recognized and its
record has a `Days` entry without a `StartTime` entry; the index expression
`s.StartTime[i]` is out of range and `Create` returns nothing. -/
theorem Create_panics_on_incomplete_record :
    courseExists brokenCatalog "CPSC 110" = true ∧
    Create doubling brokenCatalog ["CPSC 110"] = none := by
  decide

/-- C13, as stated, fails: `CPSC 121` of `brokenCatalog` is recognized and has one
lecture section, next to a record without slots; `s.Activity[0]` is out of range
on that record and `Create` returns nothing instead of one schedule. -/
theorem Create_single_course_panics_on_slotless_record :
    courseExists brokenCatalog "CPSC 121" = true ∧
    (courseRecords brokenCatalog "CPSC 121").map
      (fun e => (e.1, isLectureRecord e.2)) = [("CPSC 121 101", true), ("CPSC 121 102", false)] ∧
    Create doubling brokenCatalog ["CPSC 121"] = none := by
  decide

/-- C17, as stated, fails: the record of `CPSC 210` in `brokenCatalog` is included
(its first activity is a lecture) and has two `Days` entries but one `Activity`
entry; `s.Activity[i]` is out of range at the second slot and `createSections`
builds nothing. -/
theorem createSections_panics_on_short_activity :
    (courseRecords brokenCatalog "CPSC 210").map
      (fun e => isIncluded (e.2.Activity.headD "") lectureTypes) = [true] ∧
    createSections brokenCatalog "CPSC 210" lectureTypes = none := by
  decide

/-- C14, at a failing input: `catalog` and `swappedCatalog` enumerate the same
sections of every requested course, in a different order for `MATH 200`, yet the
schedules `Create` returns for `sharedRequest` are not the same up to order: each
run returns twice the selection that ends in the section tried last. -/
theorem Create_depends_on_map_order :
    (∀ c ∈ sharedRequest,
      List.Perm (courseRecords catalog c) (courseRecords swappedCatalog c)) ∧
    createdSchedules doubling catalog sharedRequest
      = some [[cpsc110, cpsc121, math100, math200b], [cpsc110, cpsc121, math100, math200b]] ∧
    createdSchedules doubling swappedCatalog sharedRequest
      = some [[cpsc110, cpsc121, math100, math200a], [cpsc110, cpsc121, math100, math200a]] ∧
    ¬ List.Perm
      [[cpsc110, cpsc121, math100, math200b], [cpsc110, cpsc121, math100, math200b]]
      [[cpsc110, cpsc121, math100, math200a], [cpsc110, cpsc121, math100, math200a]] := by
  decide

/-- C18, at a failing input: for `sharedRequest` generate-then-filter yields two
selections, so a selection without conflict exists, yet `Create` returns the
second of them twice and the first not at all. -/
theorem Create_differs_from_generate_then_filter :
    generateThenFilter catalog sharedRequest
      = some [[cpsc110, cpsc121, math100, math200a], [cpsc110, cpsc121, math100, math200b]] ∧
    createdSchedules doubling catalog sharedRequest
      = some [[cpsc110, cpsc121, math100, math200b], [cpsc110, cpsc121, math100, math200b]] := by
  decide

/-- C20, at a failing input: after three courses the schedule has three sections
in an array of capacity four. `addSection` accepts `math200a` and hands back a
schedule that reads as the three sections followed by `math200a`; when
`addSections` has finished, after `math200b` was appended to the same partial
schedule, that very schedule reads as the three sections followed by `math200b`. -/
theorem addSection_overwrites_accepted_schedule :
    Create doubling catalog ["CPSC 110", "CPSC 121", "MATH 100"]
      = some ([threeCourseSchedule], threeCourseMemory) ∧
    (addSection doubling threeCourseMemory threeCourseSchedule math200a).2.1 = true ∧
    (addSection doubling threeCourseMemory threeCourseSchedule math200a).1.sections
      (addSection doubling threeCourseMemory threeCourseSchedule math200a).2.2
      = [cpsc110, cpsc121, math100, math200a] ∧
    (addSections doubling threeCourseMemory [threeCourseSchedule] [math200a, math200b]).1
      = [(addSection doubling threeCourseMemory threeCourseSchedule math200a).1,
         (addSection doubling threeCourseMemory threeCourseSchedule math200a).1] ∧
    (addSection doubling threeCourseMemory threeCourseSchedule math200a).1.sections
      (addSections doubling threeCourseMemory [threeCourseSchedule] [math200a, math200b]).2
      = [cpsc110, cpsc121, math100, math200b] := by
  decide

/-- C15, as stated, fails: `cpsc121` and `cpsc110` are candidate sections of two
recognized courses of the request and do not conflict in either direction, yet
`Create` returns no schedule at all, because the only section of the third
course conflicts with `cpsc110`. -/
theorem Create_drops_compatible_pair :
    (["CPSC 121", "CPSC 110", "MATH 102"].filter (courseExists catalog))
      = ["CPSC 121", "CPSC 110", "MATH 102"] ∧
    isCandidate catalog "CPSC 121" cpsc121 = true ∧
    isCandidate catalog "CPSC 110" cpsc110 = true ∧
    conflictSection cpsc121 cpsc110 = false ∧ conflictSection cpsc110 cpsc121 = false ∧
    createdSchedules doubling catalog ["CPSC 121", "CPSC 110", "MATH 102"] = some [] := by
  decide

/-- C16, as stated, fails: with `MATH 102` removed from the request, `Create`
returns the schedule of `cpsc110`, which is the projection of no schedule of the
full request, since `Create` returns none for it. -/
theorem Create_without_course_is_not_projection :
    "MATH 102" ∈ ["CPSC 110", "MATH 102"] ∧
    ["CPSC 110", "MATH 102"].erase "MATH 102" = ["CPSC 110"] ∧
    createdSchedules doubling catalog ["CPSC 110"] = some [[cpsc110]] ∧
    createdSchedules doubling catalog ["CPSC 110", "MATH 102"] = some [] := by
  decide

theorem sectionsOf_complete_types (types : List ActivityType) :
    ∀ entries : List (String × Section), (∀ e ∈ entries, completeRecord e.2 = true) →
      sectionsOf types entries
        = some ((entries.filter (fun e => isIncluded (e.2.Activity.headD "") types)).map
            (fun e => recordSection e.1 e.2))
  | [], _ => rfl
  | (name, s) :: more, h => by
    have hs : completeRecord s = true := h (name, s) (List.mem_cons_self _ _)
    have ih := sectionsOf_complete_types types more (fun e he => h e (List.mem_cons_of_mem _ he))
    have hsess := sessionsFrom_complete s hs
    simp only [completeRecord, Bool.and_eq_true, decide_eq_true_eq] at hs
    obtain ⟨⟨⟨⟨hpos, -⟩, -⟩, -⟩, -⟩ := hs
    have h0 : s.Activity[0]? = some (s.Activity.headD "") := by
      cases hA : s.Activity with
      | nil => simp [hA] at hpos
      | cons a rest => simp
    simp only [sectionsOf, h0, ih, hsess]
    cases hin : isIncluded (s.Activity.headD "") types with
    | true =>
      simp only [Bool.not_true, Bool.false_eq_true, if_false]
      have hf : List.filter (fun e : String × Section =>
            isIncluded (e.2.Activity.headD "") types) ((name, s) :: more)
          = (name, s) :: List.filter (fun e : String × Section =>
            isIncluded (e.2.Activity.headD "") types) more :=
        List.filter_cons_of_pos hin
      rw [hf]
      rfl
    | false =>
      simp only [Bool.not_false, if_true]
      have hf : List.filter (fun e : String × Section =>
            isIncluded (e.2.Activity.headD "") types) ((name, s) :: more)
          = List.filter (fun e : String × Section =>
            isIncluded (e.2.Activity.headD "") types) more :=
        List.filter_cons_of_neg (fun h' => absurd (h'.symm.trans hin) (by decide))
      rw [hf]

theorem createSections_of_complete (db : CourseDatabase) (c : String)
    (types : List ActivityType) (hc : completeCourse db c = true) :
    createSections db c types
      = some (((courseRecords db c).filter
            (fun e => isIncluded (e.2.Activity.headD "") types)).map
          (fun e => recordSection e.1 e.2)) := by
  unfold completeCourse at hc
  unfold createSections courseRecords
  cases hl : lookupCourse db (deptOf c) c with
  | none => simp
  | some entries =>
    simp only [hl, List.all_eq_true] at hc
    simp only [Option.getD_some]
    exact sectionsOf_complete_types types entries hc

theorem createFrom_of_complete (grow : Nat → Nat) (db : CourseDatabase) :
    ∀ (courses : List String) (st : List Schedule × Memory),
      (∀ c ∈ courses, completeCourse db c = true) → ∃ r, createFrom grow db courses st = some r
  | [], st, _ => ⟨st, rfl⟩
  | c :: more, st, h => by
    have hmore : ∀ c' ∈ more, completeCourse db c' = true :=
      fun c' hc' => h c' (List.mem_cons_of_mem _ hc')
    simp only [createFrom]
    split
    · exact createFrom_of_complete grow db more st hmore
    · rw [createSections_of_complete db c lectureTypes (h c (List.mem_cons_self _ _))]
      exact createFrom_of_complete grow db more _ hmore

/-- C12, amended: for every catalog in which the records of the requested courses
are complete, and every list of course identifiers (unknown and empty ones and
malformed time strings included), `Create` returns a sequence of schedules: no
index expression of `courseExists` or `createSections` is out of range. -/
theorem Create_returns_of_complete (grow : Nat → Nat) (db : CourseDatabase)
    (courses : List String) (h : ∀ c ∈ courses, completeCourse db c = true) :
    ∃ r, Create grow db courses = some r :=
  createFrom_of_complete grow db courses ([], []) h

theorem Create_returns_of_complete_witness :
    (∀ c ∈ ["PHIL 999", "", "MATH 100", "CPSC 110"], completeCourse untimedCatalog c = true) ∧
    ∃ r, Create doubling untimedCatalog ["PHIL 999", "", "MATH 100", "CPSC 110"] = some r :=
  ⟨by decide, Create_returns_of_complete doubling untimedCatalog
    ["PHIL 999", "", "MATH 100", "CPSC 110"] (by decide)⟩

/-- C13, amended: for a single recognized course whose records are complete,
`Create` returns exactly one schedule per catalog section whose first activity is
Lecture, Seminar or Studio, in the order the map yields them, each holding just
that section; no other section yields a schedule. -/
theorem Create_single_course (grow : Nat → Nat) (db : CourseDatabase) (c : String)
    (hc : courseExists db c = true) (hcomp : completeCourse db c = true) :
    createdSchedules grow db [c]
      = some (((courseRecords db c).filter (fun e => isLectureRecord e.2)).map
          (fun e => [recordSection e.1 e.2])) := by
  have hs := createSections_of_complete db c lectureTypes hcomp
  rw [createdSchedules_single grow db c _ hc hs, List.map_map]
  have hf : (courseRecords db c).filter (fun e => isIncluded (e.2.Activity.headD "") lectureTypes)
      = (courseRecords db c).filter (fun e => isLectureRecord e.2) := by
    apply List.filter_congr
    intro e _
    rw [isIncluded_lectureTypes]; rfl
  rw [hf]
  rfl

/-- C17, amended: for a course whose records are complete, `createSections` builds,
for every included record in map order, the section named by the catalog key
whose sessions are, in slot order and then token order, one session per
space-separated token of `Days[i]`, with that token as `Day` and the activity,
term, start and end of slot `i`, the times read from the strings without colons. -/
theorem createSections_builds_record_sections (db : CourseDatabase) (course : String)
    (activityTypes : List ActivityType) (hcomp : completeCourse db course = true) :
    createSections db course activityTypes
      = some (((courseRecords db course).filter
            (fun e => isIncluded (e.2.Activity.headD "") activityTypes)).map
          (fun e => recordSection e.1 e.2)) :=
  createSections_of_complete db course activityTypes hcomp

/-- C15, amended: for a request whose recognized courses are exactly `A` then `B`,
if a candidate section `a` of `A` and a candidate section `b` of `B` do not
conflict in either direction, `Create` returns the schedule that holds `a` then
`b`. This holds whatever capacity `append` allocates. -/
theorem Create_pair_complete (grow : Nat → Nat) (db : CourseDatabase) (courses : List String)
    (A B : String) (a b : CourseSection)
    (hreq : courses.filter (courseExists db) = [A, B])
    (ha : isCandidate db A a = true) (hb : isCandidate db B b = true)
    (hab : conflictSection a b = false) (hba : conflictSection b a = false) :
    ∃ result, createdSchedules grow db courses = some result ∧ [a, b] ∈ result := by
  have hAB : courseExists db A = true ∧ courseExists db B = true := by
    have h1 : A ∈ courses.filter (courseExists db) := by rw [hreq]; simp
    have h2 : B ∈ courses.filter (courseExists db) := by rw [hreq]; simp
    exact ⟨(List.mem_filter.mp h1).2, (List.mem_filter.mp h2).2⟩
  unfold isCandidate at ha hb
  cases hsA : createSections db A lectureTypes with
  | none => simp [hsA] at ha
  | some secsA =>
    cases hsB : createSections db B lectureTypes with
    | none => simp [hsB] at hb
    | some secsB =>
      simp only [hsA, decide_eq_true_eq] at ha
      simp only [hsB, decide_eq_true_eq] at hb
      have hne : secsA ≠ [] := List.ne_nil_of_mem ha
      refine ⟨(secsA.map (fun a => [a])).flatMap (fun p => acceptedExtensions p secsB), ?_, ?_⟩
      · rw [createdSchedules_filter, hreq]
        exact createdSchedules_pair grow db A B secsA secsB hAB.1 hAB.2 hsA hsB hne
      · simp only [List.mem_flatMap, List.mem_map, acceptedExtensions, List.mem_filter]
        refine ⟨[a], ⟨a, ha, rfl⟩, b, ⟨hb, ?_⟩, rfl⟩
        simp [conflictInCourses, hab, hba]

theorem conflictSection_eq_true_iff (c1 c2 : CourseSection) :
    conflictSection c1 c2 = true ↔
      ∃ a ∈ c1.Sessions, ∃ b ∈ c2.Sessions, conflictSession a b = true := by
  simp [conflictSection, List.any_eq_true]

theorem names_ne_of_nodup (l : List CourseSection)
    (hn : (l.map (fun c => c.Name)).Nodup) (i j : Nat) (c1 c2 : CourseSection)
    (hi : l[i]? = some c1) (hj : l[j]? = some c2) (hij : i ≠ j) : c1.Name ≠ c2.Name := by
  intro hname
  have h1 : (l.map (fun c => c.Name))[i]? = some c1.Name := by simp [hi]
  have h2 : (l.map (fun c => c.Name))[j]? = some c1.Name := by simp [hj, hname]
  have hi' : i < (l.map (fun c => c.Name)).length := by
    by_contra hlt
    rw [List.getElem?_eq_none (by omega)] at h1
    exact absurd h1 (by simp)
  have hj' : j < (l.map (fun c => c.Name)).length := by
    by_contra hlt
    rw [List.getElem?_eq_none (by omega)] at h2
    exact absurd h2 (by simp)
  rw [List.getElem?_eq_getElem hi'] at h1
  rw [List.getElem?_eq_getElem hj'] at h2
  have := (@List.Nodup.getElem_inj_iff _ _ hn i hi' j hj').mp
    (by injection h1 with h1; injection h2 with h2; rw [h1, h2])
  exact hij this

/-- C19: for every schedule whose sessions all have `Start < End` and whose
sections have pairwise distinct names, `conflictInSchedule` is true exactly when
sections at two different positions contain sessions `a` and `b` with equal term
and day, `a.Start < b.End` and `b.Start < a.End`. -/
theorem conflictInSchedule_iff_sessions_overlap (m : Memory) (schedule : Schedule)
    (hwf : ∀ c ∈ schedule.sections m, ∀ a ∈ c.Sessions, a.Start < a.End)
    (hn : ((schedule.sections m).map (fun c => c.Name)).Nodup) :
    conflictInSchedule m schedule = true ↔
      ∃ (i j : Nat) (c1 c2 : CourseSection) (a b : ClassSession), i ≠ j ∧
        (schedule.sections m)[i]? = some c1 ∧ (schedule.sections m)[j]? = some c2 ∧
        a ∈ c1.Sessions ∧ b ∈ c2.Sessions ∧
        a.Term = b.Term ∧ a.Day = b.Day ∧ a.Start < b.End ∧ b.Start < a.End := by
  unfold conflictInSchedule
  rw [conflictInCourses_eq_true_iff]
  generalize schedule.sections m = l at hn hwf ⊢
  constructor
  · rintro ⟨c1, h1, c2, h2, hne, hc⟩
    obtain ⟨a, ha, b, hb, hab⟩ := (conflictSection_eq_true_iff c1 c2).mp hc
    obtain ⟨i, hi⟩ := List.mem_iff_getElem?.mp h1
    obtain ⟨j, hj⟩ := List.mem_iff_getElem?.mp h2
    have hbw := hwf c2 h2 b hb
    obtain ⟨ht, hd, hov⟩ := (conflictSession_eq_true_iff a b).mp hab
    refine ⟨i, j, c1, c2, a, b, ?_, hi, hj, ha, hb, ht, hd, by omega, by omega⟩
    rintro rfl
    rw [hi] at hj
    exact hne (by injection hj with h; rw [h])
  · rintro ⟨i, j, c1, c2, a, b, hij, hi, hj, ha, hb, ht, hd, h1, h2⟩
    have hm1 : c1 ∈ l := List.mem_iff_getElem?.mpr ⟨i, hi⟩
    have hm2 : c2 ∈ l := List.mem_iff_getElem?.mpr ⟨j, hj⟩
    have hne := names_ne_of_nodup l hn i j c1 c2 hi hj hij
    by_cases hle : a.Start ≤ b.Start
    · refine ⟨c1, hm1, c2, hm2, hne, ?_⟩
      rw [conflictSection_eq_true_iff]
      exact ⟨a, ha, b, hb, (conflictSession_eq_true_iff a b).mpr ⟨ht, hd, Or.inl ⟨hle, h2⟩⟩⟩
    · refine ⟨c2, hm2, c1, hm1, fun h => hne h.symm, ?_⟩
      rw [conflictSection_eq_true_iff]
      exact ⟨b, hb, a, ha, (conflictSession_eq_true_iff b a).mpr
        ⟨ht.symm, hd.symm, Or.inl ⟨by omega, h1⟩⟩⟩

theorem conflictInSchedule_iff_sessions_overlap_witness :
    conflictInSchedule [[cpsc110, math102]] { Courses := { ptr := 0, len := 2, cap := 2 } }
        = true ∧
    (conflictInSchedule [[cpsc110, math102]] { Courses := { ptr := 0, len := 2, cap := 2 } }
        = true ↔
      ∃ (i j : Nat) (c1 c2 : CourseSection) (a b : ClassSession), i ≠ j ∧
        (({ Courses := { ptr := 0, len := 2, cap := 2 } } : Schedule).sections
          [[cpsc110, math102]])[i]? = some c1 ∧
        (({ Courses := { ptr := 0, len := 2, cap := 2 } } : Schedule).sections
          [[cpsc110, math102]])[j]? = some c2 ∧
        a ∈ c1.Sessions ∧ b ∈ c2.Sessions ∧
        a.Term = b.Term ∧ a.Day = b.Day ∧ a.Start < b.End ∧ b.Start < a.End) :=
  ⟨by decide, conflictInSchedule_iff_sessions_overlap [[cpsc110, math102]]
    { Courses := { ptr := 0, len := 2, cap := 2 } } (by decide) (by decide)⟩

theorem Create_single_course_witness :
    courseExists catalog "MATH 200" = true ∧ completeCourse catalog "MATH 200" = true ∧
    createdSchedules doubling catalog ["MATH 200"] = some [[math200a], [math200b]] ∧
    createdSchedules doubling catalog ["MATH 200"]
      = some (((courseRecords catalog "MATH 200").filter (fun e => isLectureRecord e.2)).map
          (fun e => [recordSection e.1 e.2])) :=
  ⟨by decide, by decide, by decide,
    Create_single_course doubling catalog "MATH 200" (by decide) (by decide)⟩

theorem createSections_builds_record_sections_witness :
    completeCourse catalog "MATH 101" = true ∧
    createSections catalog "MATH 101" lectureTypes = some [math101a, math101b] ∧
    createSections catalog "MATH 101" lectureTypes
      = some (((courseRecords catalog "MATH 101").filter
            (fun e => isIncluded (e.2.Activity.headD "") lectureTypes)).map
          (fun e => recordSection e.1 e.2)) :=
  ⟨by decide, by decide,
    createSections_builds_record_sections catalog "MATH 101" lectureTypes (by decide)⟩

theorem Create_pair_complete_witness :
    ["CPSC 110", "PHIL 999", "MATH 101"].filter (courseExists catalog)
      = ["CPSC 110", "MATH 101"] ∧
    isCandidate catalog "CPSC 110" cpsc110 = true ∧
    isCandidate catalog "MATH 101" math101a = true ∧
    conflictSection cpsc110 math101a = false ∧ conflictSection math101a cpsc110 = false ∧
    ∃ result, createdSchedules doubling catalog ["CPSC 110", "PHIL 999", "MATH 101"]
      = some result ∧ [cpsc110, math101a] ∈ result :=
  ⟨by decide, by decide, by decide, by decide, by decide,
    Create_pair_complete doubling catalog ["CPSC 110", "PHIL 999", "MATH 101"]
      "CPSC 110" "MATH 101" cpsc110 math101a (by decide) (by decide) (by decide) (by decide)
      (by decide)⟩

/-! ## Extending a schedule by one more course -/

theorem extendSchedule_split (grow : Nat → Nat) (schedule : Schedule) (z : CourseSection)
    (more : List CourseSection) (st : List Schedule × Memory) :
    extendSchedule grow schedule (z :: more) st
      = extendSchedule grow schedule more (extendSchedule grow schedule [z] st) := by
  obtain ⟨N, m⟩ := st
  simp only [extendSchedule]
  split <;> rfl

theorem extendSchedule_keeps_old (grow : Nat → Nat) (schedule : Schedule) :
    ∀ (todo : List CourseSection) (N : List Schedule) (m : Memory),
      ∀ t ∈ N, t ∈ (extendSchedule grow schedule todo (N, m)).1
  | [], _, _, t, ht => ht
  | z :: more, N, m, t, ht => by
    rw [extendSchedule_cons]
    split
    · exact extendSchedule_keeps_old grow schedule more N _ t ht
    · exact extendSchedule_keeps_old grow schedule more _ _ t (List.mem_append_left _ ht)

/-- One schedule followed through the inner loop of `addSections`: a schedule
already produced that reads as `p` followed by a candidate keeps doing so, and
when the loop runs on the schedule that reads as `p` and meets a candidate that
brings no conflict, such a schedule is produced. -/
theorem extendSchedule_tracks (grow : Nat → Nat) (m0 : Memory) (G : List Schedule)
    (secs : List CourseSection) (schedule : Schedule) (hmem : schedule ∈ G)
    (p : List CourseSection) (hp : p.length = schedule.Courses.len) :
    ∀ (todo : List CourseSection) (N : List Schedule) (m : Memory),
      (∀ x ∈ todo, x ∈ secs) →
      (∀ s ∈ G, s.Courses.ValidIn m ∧ s.Courses.len = schedule.Courses.len ∧
        m.read s.Courses = m0.read s.Courses) →
      (∀ t ∈ N, t.Courses.ValidIn m ∧ t.Courses.len = schedule.Courses.len + 1 ∧
        ∃ s ∈ G, ∃ x ∈ secs, m.read t.Courses = m0.read s.Courses ++ [x]) →
      ((∃ t ∈ N, ∃ y ∈ secs, m.read t.Courses = p ++ [y]) ∨
        (p = m0.read schedule.Courses ∧
          ∃ x ∈ todo, conflictInCourses (p ++ [x]) = false)) →
      ∃ t ∈ (extendSchedule grow schedule todo (N, m)).1, ∃ y ∈ secs,
        (extendSchedule grow schedule todo (N, m)).2.read t.Courses = p ++ [y]
  | [], N, m, _, _, _, h => by
    rcases h with h | ⟨-, x, hx, -⟩
    · exact h
    · simp at hx
  | z :: more, N, m, hsub, hG, hN, h => by
    have hz : z ∈ secs := hsub z (List.mem_cons_self _ _)
    have hmore : ∀ x ∈ more, x ∈ secs := fun x hx => hsub x (List.mem_cons_of_mem _ hx)
    obtain ⟨hsv, -, hsr⟩ := hG schedule hmem
    obtain ⟨-, -, hread, -⟩ := appendSection_frame grow m schedule.Courses z hsv
    obtain ⟨hG1, hN1⟩ := extendSchedule_sound grow m0 G secs schedule hmem [z] N m
      (by intro x hx; rw [List.mem_singleton] at hx; rw [hx]; exact hz) hG hN
    rw [extendSchedule_split]
    have hstate : extendSchedule grow schedule [z] (N, m)
        = ((extendSchedule grow schedule [z] (N, m)).1,
            (extendSchedule grow schedule [z] (N, m)).2) := rfl
    rw [hstate]
    apply extendSchedule_tracks grow m0 G secs schedule hmem p hp more _ _ hmore hG1 hN1
    have hmem1 : (extendSchedule grow schedule [z] (N, m)).2
        = (appendSection grow m schedule.Courses z).1 := by
      rw [extendSchedule_cons]
      split <;> rfl
    rcases h with ⟨t, ht, y, hy, hty⟩ | ⟨hpe, x, hx, hfree⟩
    · left
      refine ⟨t, extendSchedule_keeps_old grow schedule [z] N m t ht, ?_⟩
      obtain ⟨htv, htl, -⟩ := hN t ht
      obtain ⟨-, -, k3⟩ := read_after_append grow m schedule.Courses t.Courses z hsv htv
      rw [hmem1]
      rcases k3 htl with k | k
      · exact ⟨y, hy, by rw [k, hty]⟩
      · refine ⟨z, hz, ?_⟩
        rw [k, hty, List.take_append_of_le_length (by omega), List.take_of_length_le (by omega)]
    · rcases List.mem_cons.mp hx with hxz | hxm
      · left
        subst hxz
        have hnew : (appendSection grow m schedule.Courses x).1.read
            (appendSection grow m schedule.Courses x).2 = p ++ [x] := by
          rw [hread, hsr, hpe]
        have hstep : extendSchedule grow schedule [x] (N, m)
            = (N ++ [{ Courses := (appendSection grow m schedule.Courses x).2 }],
                (appendSection grow m schedule.Courses x).1) := by
          rw [extendSchedule_cons, hnew, hfree]
          simp [extendSchedule]
        rw [hstep]
        exact ⟨{ Courses := (appendSection grow m schedule.Courses x).2 }, by simp, x, hz, hnew⟩
      · right
        exact ⟨hpe, x, hxm, hfree⟩


theorem extendSchedules_tracks (grow : Nat → Nat) (m0 : Memory) (G : List Schedule)
    (secs : List CourseSection) (L : Nat) (p : List CourseSection) (hp : p.length = L) :
    ∀ (todo N : List Schedule) (m : Memory),
      (∀ s ∈ todo, s ∈ G) →
      (∀ s ∈ G, s.Courses.ValidIn m ∧ s.Courses.len = L ∧
        m.read s.Courses = m0.read s.Courses) →
      (∀ t ∈ N, t.Courses.ValidIn m ∧ t.Courses.len = L + 1 ∧
        ∃ s ∈ G, ∃ x ∈ secs, m.read t.Courses = m0.read s.Courses ++ [x]) →
      ((∃ t ∈ N, ∃ y ∈ secs, m.read t.Courses = p ++ [y]) ∨
        (∃ s ∈ todo, p = m0.read s.Courses ∧
          ∃ x ∈ secs, conflictInCourses (p ++ [x]) = false)) →
      ∃ t ∈ (extendSchedules grow secs todo (N, m)).1, ∃ y ∈ secs,
        (extendSchedules grow secs todo (N, m)).2.read t.Courses = p ++ [y]
  | [], N, m, _, _, _, h => by
    rcases h with h | ⟨s, hs, -⟩
    · exact h
    · simp at hs
  | schedule :: rest, N, m, hsub, hG, hN, h => by
    have hmem : schedule ∈ G := hsub schedule (List.mem_cons_self _ _)
    have hL : schedule.Courses.len = L := (hG schedule hmem).2.1
    have hrest : ∀ s ∈ rest, s ∈ G := fun s hs => hsub s (List.mem_cons_of_mem _ hs)
    obtain ⟨h1, h2⟩ := extendSchedule_sound grow m0 G secs schedule hmem secs N m
      (fun x hx => hx) (by rw [hL]; exact hG) (by rw [hL]; exact hN)
    rw [hL] at h1 h2
    have inner := extendSchedule_tracks grow m0 G secs schedule hmem p (by rw [hp, hL])
      secs N m (fun x hx => hx) (by rw [hL]; exact hG) (by rw [hL]; exact hN)
    simp only [extendSchedules]
    have hstate : extendSchedule grow schedule secs (N, m)
        = ((extendSchedule grow schedule secs (N, m)).1,
            (extendSchedule grow schedule secs (N, m)).2) := rfl
    rw [hstate]
    apply extendSchedules_tracks grow m0 G secs L p hp rest _ _ hrest h1 h2
    rcases h with h | ⟨s, hs, hpe, x, hx, hfree⟩
    · exact Or.inl (inner (Or.inl h))
    · rcases List.mem_cons.mp hs with hss | hsr
      · subst hss
        exact Or.inl (inner (Or.inr ⟨hpe, x, hx, hfree⟩))
      · exact Or.inr ⟨s, hsr, hpe, x, hx, hfree⟩

/-- C16, amended: for every request and every recognized course `c`, each schedule
`Create` returns for the request to which some candidate section of `c` can be
appended without conflict is the projection of a schedule `Create` returns for
the request followed by `c`: that schedule holds the same sections followed by
one candidate section of `c`. Both runs read the catalog in the same order. This
holds whatever capacity `append` allocates. -/
theorem Create_schedule_extends (grow : Nat → Nat) (db : CourseDatabase)
    (courses : List String) (c : String) (G : List Schedule) (m : Memory)
    (hrun : Create grow db courses = some (G, m)) (hc : courseExists db c = true)
    (s : Schedule) (hs : s ∈ G) (x : CourseSection) (hx : isCandidate db c x = true)
    (hfree : conflictInCourses (s.sections m ++ [x]) = false) :
    ∃ (G' : List Schedule) (m' : Memory),
      Create grow db (courses ++ [c]) = some (G', m') ∧
      ∃ t ∈ G', ∃ y, isCandidate db c y = true ∧ t.sections m' = s.sections m ++ [y] := by
  obtain ⟨cs, -, hA⟩ := createFrom_attributed grow db courses ([], []) [] (G, m)
    (by intro t ht; simp at ht) hrun
  unfold isCandidate at hx
  cases hsec : createSections db c lectureTypes with
  | none => simp [hsec] at hx
  | some secs =>
    simp only [hsec, decide_eq_true_eq] at hx
    have hlen : G.length ≠ 0 := by
      intro h
      rw [List.length_eq_zero.mp h] at hs
      simp at hs
    have hrun' : Create grow db (courses ++ [c])
        = some (extendSchedules grow secs G ([], m)) := by
      unfold Create at hrun ⊢
      rw [createFrom_append, hrun]
      simp only [Option.some_bind, createFrom, hc, Bool.not_true, Bool.false_eq_true, if_false,
        hsec, addSections, hlen]
    have hold : ∀ s' ∈ G, s'.Courses.ValidIn m ∧ s'.Courses.len = cs.length ∧
        m.read s'.Courses = m.read s'.Courses := by
      intro s' hs'
      obtain ⟨hv, hf⟩ := hA s' hs'
      refine ⟨hv, ?_, rfl⟩
      rw [← read_length m s'.Courses hv]
      exact hf.length_eq
    have hp : (m.read s.Courses).length = cs.length := by
      obtain ⟨hv, hl, -⟩ := hold s hs
      rw [read_length m s.Courses hv, hl]
    obtain ⟨t, ht, y, hy, hread⟩ := extendSchedules_tracks grow m G secs cs.length
      (m.read s.Courses) hp G [] m (fun s' hs' => hs') hold (by intro t ht; simp at ht)
      (Or.inr ⟨s, hs, rfl, x, hx, hfree⟩)
    exact ⟨(extendSchedules grow secs G ([], m)).1, (extendSchedules grow secs G ([], m)).2,
      hrun', t, ht, y, isCandidate_of_createSections db c secs hsec y hy, hread⟩

theorem Create_schedule_extends_witness :
    Create doubling catalog ["CPSC 110", "CPSC 121", "MATH 100"]
      = some ([threeCourseSchedule], threeCourseMemory) ∧
    courseExists catalog "MATH 101" = true ∧
    isCandidate catalog "MATH 101" math101a = true ∧
    conflictInCourses (threeCourseSchedule.sections threeCourseMemory ++ [math101a]) = false ∧
    ∃ (G' : List Schedule) (m' : Memory),
      Create doubling catalog (["CPSC 110", "CPSC 121", "MATH 100"] ++ ["MATH 101"])
        = some (G', m') ∧
      ∃ t ∈ G', ∃ y, isCandidate catalog "MATH 101" y = true ∧
        t.sections m' = threeCourseSchedule.sections threeCourseMemory ++ [y] :=
  ⟨by decide, by decide, by decide, by decide,
    Create_schedule_extends doubling catalog ["CPSC 110", "CPSC 121", "MATH 100"] "MATH 101"
      [threeCourseSchedule] threeCourseMemory (by decide) (by decide) threeCourseSchedule
      (by simp) math101a (by decide) (by decide)⟩

end ScheduleCreator
